import Mathlib

/-!
Verification of the digital-rivers DEM core (`src/digitalrivers/dem.py`)
against its natural-language specification.

The grids of the Python code (numpy arrays of shape rows x cols) are
embedded as total functions from integer coordinates, together with
explicit `rows`/`cols` bounds; a read outside the bounds models the
conceptual NaN padding used by the code.  Floating-point elevations are
idealised as rationals with `Option` capturing NaN ("no-data") cells.
Slope values, which the code obtains by dividing elevation differences by
`cell_size` or `cell_size * sqrt 2`, live in the quadratic field Q(sqrt 2),
represented exactly by pairs of rationals with a decidable order that is
proved to agree with the order of the corresponding real numbers.
-/

namespace DigitalRivers

/-- `pyramids.Dataset.default_no_data_value`, the sentinel written into
integer grids for invalid cells (asserted to be `-9999.0` by the
repository's tests, `tests/test_terrain.py`). -/
def default_no_data_value : Int := -9999

/-- A rectangular integer-valued grid (e.g. a flow-direction raster read by
`read_array`), embedded as a total function; only values at coordinates
inside the `rows`/`cols` bounds are meaningful. -/
abbrev IntGrid := Int → Int → Int

/-- An elevation grid: `none` models a NaN (no-data) cell, mirroring
`DEM.values` which replaces no-data values with `np.nan`. -/
abbrev ElevGrid := Int → Int → Option ℚ

/-- A cell coordinate `(row, column)`. -/
abbrev Cell := Int × Int

/-- The accumulation array `acc` of `DEM.flow_accumulation`. -/
abbrev AccGrid := Int → Int → Int

/-- `0 <= r < rows and 0 <= c < cols`: the coordinate lies inside the
raster, as tested repeatedly in `DEM.accumulate_flow`. -/
def inDomain (rows cols : Nat) (r c : Int) : Prop :=
  0 ≤ r ∧ r < (rows : Int) ∧ 0 ≤ c ∧ c < (cols : Int)

instance (rows cols : Nat) (r c : Int) : Decidable (inDomain rows cols r c) := by
  unfold inDomain; infer_instance

/-- Reading the elevation raster with the conceptual one-cell NaN padding:
out-of-grid coordinates read as NaN (`none`). -/
def elevAt (elev : ElevGrid) (rows cols : Nat) (r c : Int) : Option ℚ :=
  if inDomain rows cols r c then elev r c else none

/-- Pointwise update of an integer grid (`acc[r, c] = v`). -/
def updateI (g : IntGrid) (r c : Int) (v : Int) : IntGrid :=
  fun r' c' => if r' = r ∧ c' = c then v else g r' c'

/-- Pointwise update of an elevation grid (`elev_sinkless[i, j] = v`). -/
def updateQ (g : ElevGrid) (r c : Int) (v : Option ℚ) : ElevGrid :=
  fun r' c' => if r' = r ∧ c' = c then v else g r' c'

/-- `DIR_OFFSETS` of `dem.py`: direction code `d` maps to the pair
`(column-offset, row-offset)`; codes outside `0..7` are never looked up by
the code (the Python dict would raise) and here return a junk value. -/
def DIR_OFFSETS (d : Int) : Int × Int :=
  if d = 0 then (0, 1)
  else if d = 1 then (-1, 1)
  else if d = 2 then (-1, 0)
  else if d = 3 then (-1, -1)
  else if d = 4 then (0, -1)
  else if d = 5 then (1, -1)
  else if d = 6 then (1, 0)
  else if d = 7 then (1, 1)
  else (0, 0)

/-- The key order of `DIR_OFFSETS` — the iteration order of
`dir_offsets.values()` and `dir_offsets.items()` (Python dicts iterate in
insertion order). -/
def dirList : List Int := [0, 1, 2, 3, 4, 5, 6, 7]

/-- `DEM.opposite_direction`: the first code whose offset is the negation
of `(dr, dc)`; `none` models Python's `None` fall-through. -/
def opposite_direction (dr dc : Int) : Option Int :=
  dirList.find? (fun d =>
    decide ((DIR_OFFSETS d).2 = -dr) && decide ((DIR_OFFSETS d).1 = -dc))

/-! ## SinkFiller (`DEM.fill_sinks`) -/

/-- The eight neighbor offsets in the order produced by
`elev[i-1:i+2, j-1:j+2].flatten()` with the center entry (index 4)
removed. -/
def neighbor_offsets : List (Int × Int) :=
  [(-1, -1), (-1, 0), (-1, 1), (0, -1), (0, 1), (1, -1), (1, 0), (1, 1)]

/-- The defined (non-NaN, in-grid) neighbor elevations of `(i, j)` in the
grid `elev`; `np.nanmin` of the flattened window ignores exactly the NaN
entries dropped here. -/
def neighborVals (elev : ElevGrid) (rows cols : Nat) (i j : Int) : List ℚ :=
  neighbor_offsets.filterMap (fun o => elevAt elev rows cols (i + o.1) (j + o.2))

/-- Binary minimum of rationals, written out so that it evaluates by
kernel reduction. -/
def minRat (a b : ℚ) : ℚ := if a ≤ b then a else b

/-- `np.nanmin` over the defined values: `none` when every value is NaN
(numpy returns NaN with a warning, and the subsequent `<` comparison is
then false), otherwise the least value. -/
def minQ? : List ℚ → Option ℚ
  | [] => none
  | x :: xs => some (xs.foldl minRat x)

theorem minQ?_mem {l : List ℚ} {m : ℚ} (h : minQ? l = some m) : m ∈ l := by
  have key : ∀ (xs : List ℚ) (x : ℚ), xs.foldl minRat x ∈ x :: xs := by
    intro xs
    induction xs with
    | nil => intro x; exact List.mem_cons_self x []
    | cons y ys ih =>
        intro x
        rw [List.foldl_cons]
        by_cases hxy : x ≤ y
        · rw [show minRat x y = x from if_pos hxy]
          rcases List.mem_cons.mp (ih x) with hm | hm
          · rw [hm]; exact List.mem_cons_self _ _
          · exact List.mem_cons_of_mem _ (List.mem_cons_of_mem _ hm)
        · rw [show minRat x y = y from if_neg hxy]
          rcases List.mem_cons.mp (ih y) with hm | hm
          · rw [hm]
            exact List.mem_cons_of_mem _ (List.mem_cons_self _ _)
          · exact List.mem_cons_of_mem _ (List.mem_cons_of_mem _ hm)
  match l, h with
  | x :: xs, h =>
      have : m = xs.foldl minRat x := by
        have := h
        unfold minQ? at this
        exact (Option.some.injEq _ _ ▸ this).symm
      rw [this]
      exact key xs x

theorem minQ?_le {l : List ℚ} {m : ℚ} (h : minQ? l = some m) :
    ∀ x ∈ l, m ≤ x := by
  have key : ∀ (xs : List ℚ) (x : ℚ),
      xs.foldl minRat x ≤ x ∧ ∀ y ∈ xs, xs.foldl minRat x ≤ y := by
    intro xs
    induction xs with
    | nil => intro x; exact ⟨le_refl x, by intro y hy; cases hy⟩
    | cons y ys ih =>
        intro x
        rw [List.foldl_cons]
        obtain ⟨h1, h2⟩ := ih (minRat x y)
        have hxy : minRat x y ≤ x ∧ minRat x y ≤ y := by
          unfold minRat
          split_ifs with hle
          · exact ⟨le_refl x, hle⟩
          · exact ⟨le_of_not_le hle, le_refl y⟩
        refine ⟨le_trans h1 hxy.1, ?_⟩
        intro z hz
        rcases List.mem_cons.mp hz with hz | hz
        · rw [hz]; exact le_trans h1 hxy.2
        · exact h2 z hz
  match l, h with
  | x :: xs, h =>
      have hm : m = xs.foldl minRat x := by
        unfold minQ? at h
        exact (Option.some.injEq _ _ ▸ h).symm
      intro z hz
      rcases List.mem_cons.mp hz with hz | hz
      · rw [hm, hz]; exact (key xs x).1
      · rw [hm]; exact (key xs x).2 z hz

/-- The interior cells `(i, j)`, `i in range(1, rows-1)`,
`j in range(1, cols-1)`, in the row-major order of the nested loops of
`DEM.fill_sinks`. -/
def interiorCells (rows cols : Nat) : List Cell :=
  (List.range (rows - 2)).flatMap (fun i =>
    (List.range (cols - 2)).map (fun j => (Int.ofNat (i + 1), Int.ofNat (j + 1))))

/-- The body of the nested loops of `DEM.fill_sinks`: neighbor elevations
are read from the original grid `elev`, the center from the current state
`g`; a NaN minimum (all neighbors NaN) or a NaN center makes the `<`
comparison false, skipping the cell. -/
def fillSinksLoop (elev : ElevGrid) (rows cols : Nat) :
    List Cell → ElevGrid → ElevGrid
  | [], g => g
  | p :: rest, g =>
      match minQ? (neighborVals elev rows cols p.1 p.2), g p.1 p.2 with
      | some m, some v =>
          if v < m then
            fillSinksLoop elev rows cols rest (updateQ g p.1 p.2 (some (m + 1/10)))
          else fillSinksLoop elev rows cols rest g
      | _, _ => fillSinksLoop elev rows cols rest g

/-- `DEM.fill_sinks`: a single forward pass over the interior cells,
starting from a copy of the elevation grid. -/
def fill_sinks (elev : ElevGrid) (rows cols : Nat) : ElevGrid :=
  fillSinksLoop elev rows cols (interiorCells rows cols) elev

/-- The per-cell description of `fill_sinks`: since neighbor minima are
taken over the original grid and every cell is written at most once, the
output at a cell is a function of the input grid alone. -/
def fillSinksPure (elev : ElevGrid) (rows cols : Nat) (i j : Int) : Option ℚ :=
  if 1 ≤ i ∧ i + 1 < (rows : Int) ∧ 1 ≤ j ∧ j + 1 < (cols : Int) then
    match minQ? (neighborVals elev rows cols i j), elev i j with
    | some m, some v => if v < m then some (m + 1/10) else some v
    | _, center => center
  else elev i j

/-! ## SlopeField (`DEM._get_8_direction_slopes`)

A slope is an elevation difference divided by `cell_size` (axis-aligned
directions) or `cell_size * sqrt 2` (diagonals).  Slope values therefore
live in Q(sqrt 2); `Q2 a b` denotes the real number `a + b * sqrt 2`. -/

structure Q2 where
  a : ℚ
  b : ℚ
deriving DecidableEq

/-- The real number denoted by a `Q2` value. -/
noncomputable def Q2.toReal (x : Q2) : ℝ := (x.a : ℝ) + (x.b : ℝ) * Real.sqrt 2

/-- Decidable strict comparison on Q(sqrt 2), by sign analysis and
squaring; proved below to agree with the order of the denoted reals. -/
def Q2.blt (x y : Q2) : Bool :=
  if 0 ≤ y.b - x.b then
    decide (x.a - y.a < 0) ||
      (decide (0 ≤ x.a - y.a) && decide ((x.a - y.a) ^ 2 < 2 * (y.b - x.b) ^ 2))
  else decide (x.a - y.a < 0) && decide (2 * (y.b - x.b) ^ 2 < (x.a - y.a) ^ 2)

theorem Q2.blt_iff (x y : Q2) : Q2.blt x y = true ↔ x.toReal < y.toReal := by
  have hs2 : Real.sqrt 2 ^ 2 = 2 := Real.sq_sqrt (by norm_num)
  have hs0 : 0 < Real.sqrt 2 := Real.sqrt_pos.mpr (by norm_num)
  have hiff : x.toReal < y.toReal ↔
      ((x.a - y.a : ℚ) : ℝ) < ((y.b - x.b : ℚ) : ℝ) * Real.sqrt 2 := by
    unfold Q2.toReal
    push_cast
    constructor <;> intro h <;> nlinarith [h]
  rw [hiff]
  unfold Q2.blt
  set p : ℚ := x.a - y.a with hp
  set q : ℚ := y.b - x.b with hq
  clear_value p q
  have hsq : ∀ t : ℝ, (t * Real.sqrt 2) ^ 2 = 2 * t ^ 2 := by
    intro t; rw [mul_pow, hs2]; ring
  split_ifs with hq0
  · have hq0' : (0 : ℝ) ≤ ((q : ℚ) : ℝ) := by exact_mod_cast hq0
    have hqs : (0 : ℝ) ≤ ((q : ℚ) : ℝ) * Real.sqrt 2 :=
      mul_nonneg hq0' (le_of_lt hs0)
    simp only [Bool.or_eq_true, Bool.and_eq_true, decide_eq_true_eq]
    constructor
    · rintro (h | ⟨h0, h2⟩)
      · have h' : ((p : ℚ) : ℝ) < 0 := by exact_mod_cast h
        linarith
      · have h0' : (0 : ℝ) ≤ ((p : ℚ) : ℝ) := by exact_mod_cast h0
        have h2' : ((p : ℚ) : ℝ) ^ 2 < 2 * ((q : ℚ) : ℝ) ^ 2 := by exact_mod_cast h2
        by_contra hge
        push_neg at hge
        have hle : ((q : ℚ) : ℝ) * Real.sqrt 2 ≤ ((p : ℚ) : ℝ) := hge
        have := pow_le_pow_left₀ hqs hle 2
        rw [hsq] at this
        linarith
    · intro h
      by_cases hp0 : p < 0
      · exact Or.inl hp0
      · refine Or.inr ⟨le_of_not_lt hp0, ?_⟩
        have hp0' : (0 : ℝ) ≤ ((p : ℚ) : ℝ) := by
          exact_mod_cast le_of_not_lt hp0
        have hlt2 : ((p : ℚ) : ℝ) ^ 2 < (((q : ℚ) : ℝ) * Real.sqrt 2) ^ 2 :=
          pow_lt_pow_left₀ h hp0' two_ne_zero
        rw [hsq] at hlt2
        exact_mod_cast hlt2
  · simp only [Bool.and_eq_true, decide_eq_true_eq]
    have hqneg : ((q : ℚ) : ℝ) < 0 := by exact_mod_cast lt_of_not_le hq0
    have hqs : ((q : ℚ) : ℝ) * Real.sqrt 2 < 0 := mul_neg_of_neg_of_pos hqneg hs0
    constructor
    · rintro ⟨h0, h2⟩
      have h0' : ((p : ℚ) : ℝ) < 0 := by exact_mod_cast h0
      have h2' : 2 * ((q : ℚ) : ℝ) ^ 2 < ((p : ℚ) : ℝ) ^ 2 := by exact_mod_cast h2
      by_contra hge
      push_neg at hge
      have hle : -((p : ℚ) : ℝ) ≤ -(((q : ℚ) : ℝ) * Real.sqrt 2) := by linarith
      have hnn : (0 : ℝ) ≤ -((p : ℚ) : ℝ) := by linarith
      have := pow_le_pow_left₀ hnn hle 2
      have hrw : (-(((q : ℚ) : ℝ) * Real.sqrt 2)) ^ 2 = 2 * ((q : ℚ) : ℝ) ^ 2 := by
        rw [neg_pow, hsq]; ring
      rw [hrw] at this
      have hple : (-((p : ℚ) : ℝ)) ^ 2 = ((p : ℚ) : ℝ) ^ 2 := by ring
      rw [hple] at this
      linarith
    · intro h
      have h0' : ((p : ℚ) : ℝ) < 0 := lt_trans h hqs
      have h0 : p < 0 := by exact_mod_cast h0'
      refine ⟨h0, ?_⟩
      have hlt : -(((q : ℚ) : ℝ) * Real.sqrt 2) < -((p : ℚ) : ℝ) := by linarith
      have hnn : (0 : ℝ) ≤ -(((q : ℚ) : ℝ) * Real.sqrt 2) := by linarith
      have hlt2 : (-(((q : ℚ) : ℝ) * Real.sqrt 2)) ^ 2 < (-((p : ℚ) : ℝ)) ^ 2 :=
        pow_lt_pow_left₀ hlt hnn two_ne_zero
      have hrw : (-(((q : ℚ) : ℝ) * Real.sqrt 2)) ^ 2 = 2 * ((q : ℚ) : ℝ) ^ 2 := by
        rw [neg_pow, hsq]; ring
      have hple : (-((p : ℚ) : ℝ)) ^ 2 = ((p : ℚ) : ℝ) ^ 2 := by ring
      rw [hrw, hple] at hlt2
      exact_mod_cast hlt2

theorem Q2.not_blt_iff (x y : Q2) : Q2.blt x y = false ↔ y.toReal ≤ x.toReal := by
  rw [← not_lt, ← Q2.blt_iff]
  constructor
  · intro h hx
    simp [h] at hx
  · intro h
    cases hb : Q2.blt x y with
    | false => rfl
    | true => exact absurd hb h

/-- The slope toward the `k`-th neighbor (`slopes[:, :, k]` in
`_get_8_direction_slopes`): `none` when the cell itself or the neighbor is
NaN or out of grid; otherwise `(e - n) / cell_size` for axis directions
(`k` even) and `(e - n) / (cell_size * sqrt 2)` for diagonals (`k` odd),
the latter written as `(e - n) / (2 * cell_size) * sqrt 2`.  The `k`-th
slope plane of the code differences the center against the neighbor at
offset `DIR_OFFSETS k`. -/
def slope_at (elev : ElevGrid) (rows cols : Nat) (cs : ℚ) (r c : Int)
    (k : Int) : Option Q2 :=
  match elevAt elev rows cols r c,
        elevAt elev rows cols (r + (DIR_OFFSETS k).2) (c + (DIR_OFFSETS k).1) with
  | some e, some n =>
      some (if k % 2 = 1 then ⟨0, (e - n) / (2 * cs)⟩ else ⟨(e - n) / cs, 0⟩)
  | _, _ => none

/-- The eight slope values `slopes[r, c, 0..7]` of a cell. -/
def slopeList (elev : ElevGrid) (rows cols : Nat) (cs : ℚ) (r c : Int) :
    List (Option Q2) :=
  dirList.map (slope_at elev rows cols cs r c)

/-! ## DirectionAssigner (`DEM.flow_direction`) -/

/-- The accumulator pass of `np.nanargmax`: keeps the first index of the
maximum among the defined entries, starting the scan at index `i`. -/
def argmaxGo : List (Option Q2) → Nat → Option (Nat × Q2) → Option (Nat × Q2)
  | [], _, best => best
  | none :: rest, i, best => argmaxGo rest (i + 1) best
  | some v :: rest, i, best =>
      match best with
      | none => argmaxGo rest (i + 1) (some (i, v))
      | some bv =>
          if Q2.blt bv.2 v then argmaxGo rest (i + 1) (some (i, v))
          else argmaxGo rest (i + 1) (some bv)

/-- `np.nanargmax` over a vector of optional slope values: the index of
the greatest defined entry, first occurrence winning ties; `none` when
every entry is undefined (the code never applies it to such a cell). -/
def nanArgmax (l : List (Option Q2)) : Option Nat :=
  (argmaxGo l 0 none).map (fun bv => bv.1)

/-- A cell is valid for direction assignment iff its elevation is defined
and at least one of its eight slopes is defined (`mask & valid_mask`). -/
def validDirCell (elev : ElevGrid) (rows cols : Nat) (cs : ℚ) (r c : Int) : Prop :=
  (elevAt elev rows cols r c).isSome = true ∧
    (slopeList elev rows cols cs r c).any Option.isSome = true

instance (elev : ElevGrid) (rows cols : Nat) (cs : ℚ) (r c : Int) :
    Decidable (validDirCell elev rows cols cs r c) := by
  unfold validDirCell; infer_instance

/-- `DEM.flow_direction` without forced overrides: valid cells get
`np.nanargmax` of their slopes, invalid cells the no-data sentinel. -/
def flow_direction (elev : ElevGrid) (rows cols : Nat) (cs : ℚ) : IntGrid :=
  fun r c =>
    if validDirCell elev rows cols cs r c then
      match nanArgmax (slopeList elev rows cols cs r c) with
      | some k => (k : Int)
      | none => default_no_data_value
    else default_no_data_value

/-- The forced-override pass of `DEM.flow_direction`: each
`((row, col), code)` entry unconditionally overwrites the grid value at
that coordinate, in list order. -/
def apply_overrides (g : IntGrid) (os : List (Cell × Int)) : IntGrid :=
  os.foldl (fun g' o => updateI g' o.1.1 o.1.2 o.2) g

/-- `DEM.flow_direction` with a forced-override list. -/
def flow_direction_forced (elev : ElevGrid) (rows cols : Nat) (cs : ℚ)
    (os : List (Cell × Int)) : IntGrid :=
  apply_overrides (flow_direction elev rows cols cs) os

/-! ## FlowAccumulator (`DEM.accumulate_flow`, `DEM.flow_accumulation`)

The Python functions recurse without any termination guarantee (a cyclic
direction grid recurses forever); the embedding threads an explicit fuel
and returns `none` exactly when the recursion of the code would descend
beyond `fuel` nested calls.  The accumulation array is threaded as
explicit state. -/

/-- The `for dc, dr in dir_offsets.values()` loop of `accumulate_flow`:
for each direction the neighbor `(r + dr, c + dc)` is an upstream cell iff
it is in the domain and its direction code is the opposite of the current
direction; each upstream cell contributes `1 +` its own accumulation.  The
parameter `f` is the recursive call of `accumulate_flow` with the
remaining recursion budget. -/
def accumulate_loop (f : Int → Int → AccGrid → Option (AccGrid × Int))
    (flowDir : IntGrid) (rows cols : Nat) (r c : Int) :
    List Int → AccGrid → Int → Option (AccGrid × Int)
  | [], acc, total => some (acc, total)
  | d :: ds, acc, total =>
      if inDomain rows cols (r + (DIR_OFFSETS d).2) (c + (DIR_OFFSETS d).1) ∧
          opposite_direction (DIR_OFFSETS d).2 (DIR_OFFSETS d).1 =
            some (flowDir (r + (DIR_OFFSETS d).2) (c + (DIR_OFFSETS d).1)) then
        match f (r + (DIR_OFFSETS d).2) (c + (DIR_OFFSETS d).1) acc with
        | none => none
        | some (acc2, t) =>
            accumulate_loop f flowDir rows cols r c ds acc2 (total + t + 1)
      else accumulate_loop f flowDir rows cols r c ds acc total

/-- `DEM.accumulate_flow(r, c, flow_dir, acc, dir_offsets)`: returns the
updated accumulation array and the value the Python function returns;
`none` models the recursion exceeding `fuel` nested calls (the Python
code, which has no cycle guard, would overflow any call-stack bound). -/
def accumulate_flow (flowDir : IntGrid) (rows cols : Nat) :
    Nat → Int → Int → AccGrid → Option (AccGrid × Int)
  | 0, _, _, _ => none
  | Nat.succ fuel, r, c, acc =>
      if inDomain rows cols r c then
        if 0 ≤ acc r c then some (acc, acc r c)
        else
          match accumulate_loop (accumulate_flow flowDir rows cols fuel)
              flowDir rows cols r c dirList acc 0 with
          | none => none
          | some (acc2, total) => some (updateI acc2 r c total, total)
      else some (acc, 0)

/-- All cells of the raster in the row-major order of the nested loops of
`DEM.flow_accumulation`. -/
def allCells (rows cols : Nat) : List Cell :=
  (List.range rows).flatMap (fun i =>
    (List.range cols).map (fun j => (Int.ofNat i, Int.ofNat j)))

/-- The initial accumulation array: the no-data sentinel everywhere, then
`-1` ("unprocessed") at the cells whose elevation is defined. -/
def acc_init (elev : ElevGrid) (rows cols : Nat) : AccGrid :=
  fun r c =>
    if inDomain rows cols r c ∧ (elev r c).isSome then -1 else default_no_data_value

/-- The main loop of `DEM.flow_accumulation`: process every cell whose
accumulation entry is still `-1`. -/
def accum_cells (flowDir : IntGrid) (rows cols fuel : Nat) :
    List Cell → AccGrid → Option AccGrid
  | [], acc => some acc
  | p :: ps, acc =>
      if acc p.1 p.2 = -1 then
        match accumulate_flow flowDir rows cols fuel p.1 p.2 acc with
        | none => none
        | some (acc2, _) => accum_cells flowDir rows cols fuel ps acc2
      else accum_cells flowDir rows cols fuel ps acc

/-- `DEM.flow_accumulation`: the finished accumulation array, or `none`
when the recursion exceeds the fuel (as the unguarded Python recursion
would exceed any call-stack bound). -/
def flow_accumulation (flowDir : IntGrid) (elev : ElevGrid) (rows cols fuel : Nat) :
    Option AccGrid :=
  accum_cells flowDir rows cols fuel (allCells rows cols) (acc_init elev rows cols)

/-- The upstream neighbors of `(r, c)` scanned by the direction loop of
`accumulate_flow`, restricted to a direction sublist `ds`. -/
def upstream_cells_of (flowDir : IntGrid) (rows cols : Nat) (r c : Int)
    (ds : List Int) : List Cell :=
  ds.filterMap (fun d =>
    if inDomain rows cols (r + (DIR_OFFSETS d).2) (c + (DIR_OFFSETS d).1) ∧
        opposite_direction (DIR_OFFSETS d).2 (DIR_OFFSETS d).1 =
          some (flowDir (r + (DIR_OFFSETS d).2) (c + (DIR_OFFSETS d).1)) then
      some (r + (DIR_OFFSETS d).2, c + (DIR_OFFSETS d).1)
    else none)

/-- The upstream neighbors of `(r, c)` under the direction grid. -/
def upstream_cells (flowDir : IntGrid) (rows cols : Nat) (r c : Int) : List Cell :=
  upstream_cells_of flowDir rows cols r c dirList

/-! ## DirectionIndexTable (`DEM.flow_direction_index`) -/

/-- The admissible bit codes `fd_should` of `DEM.flow_direction_index`. -/
def fd_allowed : List Int := [1, 2, 4, 8, 16, 32, 64, 128]

/-- Whether the grid contains a non-no-data value outside `fd_allowed`
(the negation of the `all(fd_val[i] in fd_should ...)` validation). -/
def fd_invalid_exists (fd : IntGrid) (rows cols : Nat) (noVal : Int) : Bool :=
  (allCells rows cols).any (fun p =>
    decide (fd p.1 p.2 ≠ noVal) && decide (fd p.1 p.2 ∉ fd_allowed))

/-- The fixed message of the `ValueError` raised by
`DEM.flow_direction_index` on invalid bit codes. -/
def fd_error_message : String :=
  "flow direction raster should contain values 1,2,4,8,16,32,64,128 only "

/-- The `elif` chain of `DEM.flow_direction_index`, mapping a cell's bit
code to the coordinate of its downstream cell; unmatched values (including
the no-data value, unless it is itself a bit code) leave the entry NaN. -/
def fd_cell_target (v : Int) (i j : Int) : Option Cell :=
  if v = 1 then some (i, j + 1)
  else if v = 128 then some (i - 1, j + 1)
  else if v = 64 then some (i - 1, j)
  else if v = 32 then some (i - 1, j - 1)
  else if v = 16 then some (i, j - 1)
  else if v = 8 then some (i + 1, j - 1)
  else if v = 4 then some (i + 1, j)
  else if v = 2 then some (i + 1, j + 1)
  else none

/-- `DEM.flow_direction_index`: validation then conversion; the error case
models the `ValueError` (whose message is a fixed string). -/
def flow_direction_index (fd : IntGrid) (rows cols : Nat) (noVal : Int) :
    Except String (Int → Int → Option Cell) :=
  if fd_invalid_exists fd rows cols noVal = true then Except.error fd_error_message
  else Except.ok (fun i j =>
    if inDomain rows cols i j then fd_cell_target (fd i j) i j else none)

/-! ## BasinPruner (`DEM.delete_basins`) -/

/-- The multiset of non-no-data basin ids, in row-major order of first
occurrence of each cell (the list comprehension of `delete_basins`). -/
def basin_values (basins : IntGrid) (rows cols : Nat) (noVal : Int) : List Int :=
  (allCells rows cols).filterMap (fun p =>
    if basins p.1 p.2 ≠ noVal then some (basins p.1 p.2) else none)

/-- Models `list(set(...))` over the basin ids.  A CPython `set` of small
non-negative integers stores value `v` in hash-table slot `v` (since
`hash(v) = v` and the table size is a power of two larger than every id)
and iterates its slots in ascending order, so for ids in `0..7` the list
is the ascending enumeration of the distinct ids, NOT their order of first
occurrence. -/
def basins_val (basins : IntGrid) (rows cols : Nat) (noVal : Int) : List Int :=
  ((basin_values basins rows cols noVal).dedup).insertionSort (· ≤ ·)

/-- `DEM.delete_basins`: keep only the cells carrying `basins_val[0]`,
overwriting every other non-no-data cell with the no-data value; `none`
models the `IndexError` Python raises when the raster has no valid cell. -/
def delete_basins (basins : IntGrid) (rows cols : Nat) (noVal : Int) :
    Option IntGrid :=
  (basins_val basins rows cols noVal).head?.map (fun v0 =>
    fun r c =>
      if inDomain rows cols r c ∧ basins r c ≠ noVal ∧ basins r c ≠ v0 then noVal
      else basins r c)

/-! ## Cell enumeration lemmas -/

theorem mem_interiorCells (rows cols : Nat) (p : Cell) :
    p ∈ interiorCells rows cols ↔
      1 ≤ p.1 ∧ p.1 + 1 < (rows : Int) ∧ 1 ≤ p.2 ∧ p.2 + 1 < (cols : Int) := by
  obtain ⟨a, b⟩ := p
  simp only [interiorCells, List.mem_flatMap, List.mem_map, List.mem_range,
    Prod.mk.injEq, Int.ofNat_eq_natCast]
  constructor
  · rintro ⟨i, hi, j, hj, h1, h2⟩
    omega
  · rintro ⟨h1, h2, h3, h4⟩
    exact ⟨(a - 1).toNat, by omega, (b - 1).toNat, by omega, by omega, by omega⟩

theorem interiorCells_nodup (rows cols : Nat) : (interiorCells rows cols).Nodup := by
  unfold interiorCells
  rw [List.nodup_flatMap]
  constructor
  · intro i _
    refine (List.nodup_range _).map ?_
    intro x y h
    simp only [Prod.mk.injEq, Int.ofNat_eq_natCast] at h
    omega
  · refine (List.nodup_range _).imp ?_
    intro i j hne p hp hq
    simp only [List.mem_map, List.mem_range] at hp hq
    obtain ⟨x, _, hx⟩ := hp
    obtain ⟨y, _, hy⟩ := hq
    rw [← hx] at hy
    simp only [Prod.mk.injEq, Int.ofNat_eq_natCast] at hy
    omega

theorem mem_allCells (rows cols : Nat) (p : Cell) :
    p ∈ allCells rows cols ↔ inDomain rows cols p.1 p.2 := by
  obtain ⟨a, b⟩ := p
  simp only [allCells, List.mem_flatMap, List.mem_map, List.mem_range,
    Prod.mk.injEq, inDomain, Int.ofNat_eq_natCast]
  constructor
  · rintro ⟨i, hi, j, hj, h1, h2⟩
    omega
  · rintro ⟨h1, h2, h3, h4⟩
    exact ⟨a.toNat, by omega, b.toNat, by omega, by omega, by omega⟩

/-! ## SinkFiller: the sequential pass equals the per-cell function -/

theorem fillSinksLoop_eq (elev : ElevGrid) (rows cols : Nat) :
    ∀ (cells : List Cell) (g : ElevGrid), cells.Nodup →
      (∀ p ∈ cells,
        1 ≤ p.1 ∧ p.1 + 1 < (rows : Int) ∧ 1 ≤ p.2 ∧ p.2 + 1 < (cols : Int)) →
      (∀ p ∈ cells, g p.1 p.2 = elev p.1 p.2) →
      ∀ i j : Int, fillSinksLoop elev rows cols cells g i j =
        if (i, j) ∈ cells then fillSinksPure elev rows cols i j else g i j := by
  intro cells
  induction cells with
  | nil => intro g _ _ _ i j; simp [fillSinksLoop]
  | cons p rest ih =>
      intro g hnd hint hsame i j
      have hnotp : p ∉ rest := (List.nodup_cons.mp hnd).1
      have hndr : rest.Nodup := (List.nodup_cons.mp hnd).2
      have hintp := hint p (List.mem_cons_self p rest)
      have hsamep := hsame p (List.mem_cons_self p rest)
      -- the state after processing p, and the fact that it agrees with
      -- fillSinksPure at p and with g everywhere else
      have hstep : ∃ g' : ElevGrid,
          fillSinksLoop elev rows cols (p :: rest) g =
            fillSinksLoop elev rows cols rest g' ∧
          g' p.1 p.2 = fillSinksPure elev rows cols p.1 p.2 ∧
          ∀ i' j' : Int, ¬(i' = p.1 ∧ j' = p.2) → g' i' j' = g i' j' := by
        rcases hmin : minQ? (neighborVals elev rows cols p.1 p.2) with _ | m
        · refine ⟨g, ?_, ?_, fun _ _ _ => rfl⟩
          · rw [fillSinksLoop, hmin]
          · simp only [fillSinksPure, if_pos hintp, hmin]
            exact hsamep
        · rcases hc : g p.1 p.2 with _ | v
          · have hce : elev p.1 p.2 = none := hsamep.symm.trans hc
            refine ⟨g, ?_, ?_, fun _ _ _ => rfl⟩
            · rw [fillSinksLoop, hmin, hc]
            · simp only [fillSinksPure, if_pos hintp, hmin, hce]
              exact hc
          · have hcv : elev p.1 p.2 = some v := hsamep.symm.trans hc
            by_cases hlt : v < m
            · refine ⟨updateQ g p.1 p.2 (some (m + 1/10)), ?_, ?_, ?_⟩
              · simp only [fillSinksLoop, hmin, hc, if_pos hlt]
              · simp only [fillSinksPure, if_pos hintp, hmin, hcv, if_pos hlt]
                simp [updateQ]
              · intro i' j' hne
                simp only [updateQ, if_neg hne]
            · refine ⟨g, ?_, ?_, fun _ _ _ => rfl⟩
              · simp only [fillSinksLoop, hmin, hc, if_neg hlt]
              · simp only [fillSinksPure, if_pos hintp, hmin, hcv, if_neg hlt]
                exact hc
      obtain ⟨g', hg1, hg2, hg3⟩ := hstep
      rw [hg1]
      have hrest : ∀ q ∈ rest, g' q.1 q.2 = elev q.1 q.2 := by
        intro q hq
        have hqp : ¬(q.1 = p.1 ∧ q.2 = p.2) := by
          intro hqq
          apply hnotp
          have : q = p := Prod.ext hqq.1 hqq.2
          rwa [← this]
        rw [hg3 q.1 q.2 hqp]
        exact hsame q (List.mem_cons_of_mem p hq)
      rw [ih g' hndr (fun q hq => hint q (List.mem_cons_of_mem p hq)) hrest i j]
      by_cases hij : (i, j) ∈ rest
      · rw [if_pos hij, if_pos (List.mem_cons_of_mem p hij)]
      · rw [if_neg hij]
        by_cases hijp : (i, j) = p
        · have hmem : (i, j) ∈ p :: rest := by
            rw [hijp]; exact List.mem_cons_self p rest
          rw [if_pos hmem]
          subst hijp
          exact hg2
        · have hnm : (i, j) ∉ p :: rest := by
            intro hmem
            rcases List.mem_cons.mp hmem with h | h
            · exact hijp h
            · exact hij h
          rw [if_neg hnm]
          refine hg3 i j ?_
          intro hx
          exact hijp (Prod.ext hx.1 hx.2)

theorem fill_sinks_eq_pure (elev : ElevGrid) (rows cols : Nat) (i j : Int) :
    fill_sinks elev rows cols i j = fillSinksPure elev rows cols i j := by
  rw [fill_sinks, fillSinksLoop_eq elev rows cols (interiorCells rows cols) elev
    (interiorCells_nodup rows cols)
    (fun p hp => (mem_interiorCells rows cols p).mp hp) (fun _ _ => rfl) i j]
  by_cases h : (i, j) ∈ interiorCells rows cols
  · rw [if_pos h]
  · rw [if_neg h, fillSinksPure, if_neg]
    intro hcond
    exact h ((mem_interiorCells rows cols (i, j)).mpr hcond)

/-! ## Claims C10, C4, C7 about the SinkFiller -/

/-- C10: `fill_sinks` is pointwise inflationary — no cell is ever lowered —
and each output cell is the per-cell function `fillSinksPure` of the
original input grid alone, independent of cells modified earlier in the
same pass. -/
theorem C10_fill_sinks_inflationary (elev : ElevGrid) (rows cols : Nat)
    (i j : Int) (v : ℚ) (h : elev i j = some v) :
    (∃ w : ℚ, fill_sinks elev rows cols i j = some w ∧ v ≤ w) ∧
      fill_sinks elev rows cols i j = fillSinksPure elev rows cols i j := by
  refine ⟨?_, fill_sinks_eq_pure elev rows cols i j⟩
  rw [fill_sinks_eq_pure]
  unfold fillSinksPure
  split_ifs with hint
  · rcases hmin : minQ? (neighborVals elev rows cols i j) with _ | m
    · simp only [hmin, h]
      exact ⟨v, rfl, le_refl v⟩
    · simp only [hmin, h]
      by_cases hlt : v < m
      · rw [if_pos hlt]
        exact ⟨m + 1/10, rfl, by linarith⟩
      · rw [if_neg hlt]
        exact ⟨v, rfl, le_refl v⟩
  · exact ⟨v, h, le_refl v⟩

/-- The 3x3 grid with uniform border elevation 10 and center elevation 5:
the center is strictly lower than every border cell. -/
def cexC7Elev : ElevGrid := fun r c =>
  if r = 1 ∧ c = 1 then some 5
  else if 0 ≤ r ∧ r < 3 ∧ 0 ≤ c ∧ c < 3 then some 10
  else none

/-- Witness for C10 at the concrete grid `cexC7Elev`: the center cell
holds elevation 5 and is only ever raised. -/
theorem C10_witness :
    cexC7Elev 1 1 = some 5 ∧
    ((∃ w : ℚ, fill_sinks cexC7Elev 3 3 1 1 = some w ∧ (5 : ℚ) ≤ w) ∧
      fill_sinks cexC7Elev 3 3 1 1 = fillSinksPure cexC7Elev 3 3 1 1) :=
  ⟨rfl, C10_fill_sinks_inflationary cexC7Elev 3 3 1 1 5 rfl⟩

/-- The 4x4 grid refuting C4 as stated: cell (1,1) = 5 with neighbor
(1,2) = 3, every other cell 10.  The pass raises (1,2) to 5.1 (its lowest
original neighbor is (1,1) = 5) and leaves (1,1) at 5, so in the output
grid (1,1) is strictly below the minimum of its neighbors. -/
def cexC4Elev : ElevGrid := fun r c =>
  if r = 1 ∧ c = 1 then some 5
  else if r = 1 ∧ c = 2 then some 3
  else if 0 ≤ r ∧ r < 4 ∧ 0 ≤ c ∧ c < 4 then some 10
  else none

/-- C4 counterexample: in the grid returned by `fill_sinks` on
`cexC4Elev`, the interior valid cell (1,1) has elevation 5 while the
minimum elevation among its valid neighbors in that same output grid is
5.1, so "output elevation >= min of neighbor elevations in the output
grid" is false. -/
theorem C4_counterexample :
    fill_sinks cexC4Elev 4 4 1 1 = some 5 ∧
    minQ? (neighborVals (fill_sinks cexC4Elev 4 4) 4 4 1 1) = some (51/10) ∧
    ¬((51/10 : ℚ) ≤ 5) := by
  refine ⟨?_, ?_, by norm_num⟩ <;> with_unfolding_all decide

/-- C4 (amended): for every interior valid cell, the output elevation is
at least the minimum elevation among its valid neighbors in the INPUT
grid (not the output grid), and every non-interior (in particular every
border) cell is unchanged. -/
theorem C4_fill_sinks_ge_min_input_neighbors (elev : ElevGrid) (rows cols : Nat)
    (i j : Int)
    (hint : 1 ≤ i ∧ i + 1 < (rows : Int) ∧ 1 ≤ j ∧ j + 1 < (cols : Int))
    (v : ℚ) (hv : elev i j = some v)
    (m : ℚ) (hm : minQ? (neighborVals elev rows cols i j) = some m) :
    (∃ w : ℚ, fill_sinks elev rows cols i j = some w ∧ m ≤ w) ∧
    ∀ r c : Int, ¬(1 ≤ r ∧ r + 1 < (rows : Int) ∧ 1 ≤ c ∧ c + 1 < (cols : Int)) →
      fill_sinks elev rows cols r c = elev r c := by
  constructor
  · rw [fill_sinks_eq_pure]
    unfold fillSinksPure
    rw [if_pos hint]
    simp only [hm, hv]
    by_cases hlt : v < m
    · rw [if_pos hlt]
      exact ⟨m + 1/10, rfl, by linarith⟩
    · rw [if_neg hlt]
      exact ⟨v, rfl, by linarith⟩
  · intro r c hnc
    rw [fill_sinks_eq_pure]
    unfold fillSinksPure
    rw [if_neg hnc]

/-- Witness for the amended C4 at `cexC4Elev`, cell (2,1): input value 10,
minimum input neighbor 3, and the conclusion instantiated there. -/
theorem C4_witness :
    cexC4Elev 2 1 = some 10 ∧
    minQ? (neighborVals cexC4Elev 4 4 2 1) = some 3 ∧
    ((∃ w : ℚ, fill_sinks cexC4Elev 4 4 2 1 = some w ∧ (3 : ℚ) ≤ w) ∧
    ∀ r c : Int,
      ¬(1 ≤ r ∧ r + 1 < ((4 : Nat) : Int) ∧ 1 ≤ c ∧ c + 1 < ((4 : Nat) : Int)) →
        fill_sinks cexC4Elev 4 4 r c = cexC4Elev r c) :=
  ⟨rfl, by with_unfolding_all decide,
    C4_fill_sinks_ge_min_input_neighbors cexC4Elev 4 4 2 1 (by decide) 10 rfl 3
      (by with_unfolding_all decide)⟩

/-- C7 counterexample: for `cexC7Elev` (center 5 strictly below the
uniform border 10) the filled grid has center 10.1, above every border
cell, so border cell (0,0) gets direction 0 (toward (1,0)); the unique
direction code pointing from (0,0) to the center (1,1) is 7, so not all
eight border cells point toward the center. -/
theorem C7_counterexample :
    cexC7Elev 1 1 = some 5 ∧
    neighborVals cexC7Elev 3 3 1 1 = [10, 10, 10, 10, 10, 10, 10, 10] ∧
    flow_direction (fill_sinks cexC7Elev 3 3) 3 3 1 0 0 = 0 ∧
    (0 : Int) ≠ 7 := by
  refine ⟨rfl, by with_unfolding_all decide, ?_, by decide⟩
  with_unfolding_all decide

/-- C7 (amended): for every fully-defined 3x3 elevation grid whose center
is strictly lower than every border cell, sink filling raises the center
to `min(border) + 0.1` and leaves all other cells unchanged.  (The
original claim's further conjuncts — that direction assignment then
points all eight border cells at the center and that the center's
accumulation is 8 — are refuted by `C7_counterexample`: the filled center
lies 0.1 above the lowest border cell, so a steepest-descent direction
toward the center cannot win everywhere.) -/
theorem C7_filled_center_eq_min_border (e : ElevGrid) (v : ℚ)
    (hc : e 1 1 = some v)
    (_hall : ∀ p ∈ allCells 3 3, (e p.1 p.2).isSome = true)
    (m : ℚ) (hm : minQ? (neighborVals e 3 3 1 1) = some m)
    (hlow : ∀ w ∈ neighborVals e 3 3 1 1, v < w) :
    fill_sinks e 3 3 1 1 = some (m + 1/10) ∧
    ∀ r c : Int, inDomain 3 3 r c → ¬(r = 1 ∧ c = 1) →
      fill_sinks e 3 3 r c = e r c := by
  constructor
  · rw [fill_sinks_eq_pure]
    unfold fillSinksPure
    rw [if_pos (by norm_num)]
    simp only [hm, hc]
    have hmmem : m ∈ neighborVals e 3 3 1 1 := minQ?_mem hm
    rw [if_pos (hlow m hmmem)]
  · intro r c hdom hne
    rw [fill_sinks_eq_pure]
    unfold fillSinksPure
    rw [if_neg]
    intro hcond
    apply hne
    push_cast at hcond
    constructor <;> omega

/-- Witness for the amended C7 at the concrete grid `cexC7Elev`: the
filled center equals `min(border) + 0.1 = 10.1`. -/
theorem C7_witness :
    fill_sinks cexC7Elev 3 3 1 1 = some (10 + 1/10) ∧
    ∀ r c : Int, inDomain 3 3 r c → ¬(r = 1 ∧ c = 1) →
      fill_sinks cexC7Elev 3 3 r c = cexC7Elev r c :=
  C7_filled_center_eq_min_border cexC7Elev 5 rfl (by decide) 10
    (by with_unfolding_all decide) (by with_unfolding_all decide)

/-! ## Claim C8: forced overrides -/

theorem apply_overrides_not_mem (g : IntGrid) :
    ∀ (os : List (Cell × Int)) (r c : Int), (∀ o ∈ os, o.1 ≠ (r, c)) →
      apply_overrides g os r c = g r c := by
  intro os
  induction os generalizing g with
  | nil => intro r c _; rfl
  | cons o os' ih =>
      intro r c h
      have hstep : apply_overrides g (o :: os') =
          apply_overrides (updateI g o.1.1 o.1.2 o.2) os' := rfl
      rw [hstep, ih (updateI g o.1.1 o.1.2 o.2) r c
        (fun o' ho' => h o' (List.mem_cons_of_mem o ho'))]
      have hne := h o (List.mem_cons_self o os')
      simp only [updateI]
      rw [if_neg]
      intro hx
      apply hne
      have : o.1 = (o.1.1, o.1.2) := rfl
      rw [this, ← hx.1, ← hx.2]

theorem apply_overrides_append (g : IntGrid) (l₁ l₂ : List (Cell × Int)) :
    apply_overrides g (l₁ ++ l₂) = apply_overrides (apply_overrides g l₁) l₂ := by
  unfold apply_overrides
  exact List.foldl_append _ _ l₁ l₂

/-- C8: the direction grid returned with a forced-override list equals the
override's code at every overridden coordinate (the last matching entry
when a coordinate is listed twice), with no validity check, and equals the
automatically assigned value at every coordinate no override mentions. -/
theorem C8_forced_overrides (elev : ElevGrid) (rows cols : Nat) (cs : ℚ)
    (os : List (Cell × Int)) (r c : Int) :
    ((∀ o ∈ os, o.1 ≠ (r, c)) →
      flow_direction_forced elev rows cols cs os r c =
        flow_direction elev rows cols cs r c) ∧
    (∀ (v : Int) (l₁ l₂ : List (Cell × Int)),
      os = l₁ ++ ((r, c), v) :: l₂ → (∀ o ∈ l₂, o.1 ≠ (r, c)) →
      flow_direction_forced elev rows cols cs os r c = v) := by
  constructor
  · intro h
    exact apply_overrides_not_mem (flow_direction elev rows cols cs) os r c h
  · intro v l₁ l₂ hos h
    unfold flow_direction_forced
    rw [hos, apply_overrides_append]
    have hstep : apply_overrides (apply_overrides (flow_direction elev rows cols cs) l₁)
        (((r, c), v) :: l₂) =
        apply_overrides
          (updateI (apply_overrides (flow_direction elev rows cols cs) l₁) r c v)
          l₂ := rfl
    rw [hstep, apply_overrides_not_mem _ l₂ r c h]
    simp [updateI]

/-- A 1x2 elevation grid used by concrete instances: (0,0) = 0, (0,1) = 1. -/
def wC8Elev : ElevGrid := fun r c =>
  if r = 0 ∧ c = 0 then some 0 else if r = 0 ∧ c = 1 then some 1 else none

/-- Witness for C8: with the single override `((0,1), 3)`, coordinate
(0,0) keeps its automatic direction and (0,1) is forced to 3. -/
theorem C8_witness :
    flow_direction_forced wC8Elev 1 2 1 [((0, 1), 3)] 0 0 =
      flow_direction wC8Elev 1 2 1 0 0 ∧
    flow_direction_forced wC8Elev 1 2 1 [((0, 1), 3)] 0 1 = 3 :=
  ⟨(C8_forced_overrides wC8Elev 1 2 1 [((0, 1), 3)] 0 0).1 (by decide),
   (C8_forced_overrides wC8Elev 1 2 1 [((0, 1), 3)] 0 1).2 3 [] [] rfl (by decide)⟩

/-! ## Claim C3: DirectionIndexTable validation -/

/-- C3 (amended): `flow_direction_index` fails exactly when the grid holds
a non-no-data value outside `{1,2,4,8,16,32,64,128}`, and the error it
fails with is one fixed message naming the allowed set — it does not name
the offending value; on grids without such a value it succeeds. -/
theorem C3_direction_index_validation (fd : IntGrid) (rows cols : Nat)
    (noVal : Int) :
    (fd_invalid_exists fd rows cols noVal = true ↔
      ∃ r c : Int, inDomain rows cols r c ∧ fd r c ≠ noVal ∧ fd r c ∉ fd_allowed) ∧
    (fd_invalid_exists fd rows cols noVal = true →
      flow_direction_index fd rows cols noVal = Except.error fd_error_message) ∧
    (fd_invalid_exists fd rows cols noVal = false →
      flow_direction_index fd rows cols noVal =
        Except.ok (fun i j =>
          if inDomain rows cols i j then fd_cell_target (fd i j) i j else none)) := by
    refine ⟨?_, ?_, ?_⟩
    · unfold fd_invalid_exists
      rw [List.any_eq_true]
      constructor
      · rintro ⟨p, hp, hcond⟩
        simp only [Bool.and_eq_true, decide_eq_true_eq] at hcond
        exact ⟨p.1, p.2, (mem_allCells rows cols p).mp hp, hcond.1, hcond.2⟩
      · rintro ⟨r, c, hdom, h1, h2⟩
        refine ⟨(r, c), (mem_allCells rows cols (r, c)).mpr hdom, ?_⟩
        simp only [Bool.and_eq_true, decide_eq_true_eq]
        exact ⟨h1, h2⟩
    · intro h
      unfold flow_direction_index
      rw [if_pos h]
    · intro h
      unfold flow_direction_index
      rw [if_neg]
      rw [h]
      intro hx
      cases hx

/-- The constant grids `[[3]]` and `[[5]]`. -/
def cexC3Grid3 : IntGrid := fun _ _ => 3

/-- The constant grid `[[5]]`. -/
def cexC3Grid5 : IntGrid := fun _ _ => 5

/-- C3 counterexample: the grids `[[3]]` and `[[5]]` contain different
offending values yet produce the very same error value (one fixed string
listing the allowed codes), so the error does not name the offending
value. -/
theorem C3_counterexample :
    cexC3Grid3 0 0 = 3 ∧ cexC3Grid5 0 0 = 5 ∧
    flow_direction_index cexC3Grid3 1 1 (-9999) = Except.error fd_error_message ∧
    flow_direction_index cexC3Grid5 1 1 (-9999) = Except.error fd_error_message :=
  ⟨rfl, rfl, rfl, rfl⟩

/-- Witness for the amended C3: the grid `[[3]]` trips the validation. -/
theorem C3_witness :
    flow_direction_index cexC3Grid3 1 1 (-9999) = Except.error fd_error_message :=
  (C3_direction_index_validation cexC3Grid3 1 1 (-9999)).2.1 (by decide)

/-! ## Claim C5: BasinPruner -/

theorem mem_basin_values (basins : IntGrid) (rows cols : Nat) (noVal : Int)
    (x : Int) :
    x ∈ basin_values basins rows cols noVal ↔
      (∃ r c : Int, inDomain rows cols r c ∧ basins r c = x) ∧ x ≠ noVal := by
  unfold basin_values
  simp only [List.mem_filterMap]
  constructor
  · rintro ⟨p, hp, hx⟩
    by_cases h : basins p.1 p.2 ≠ noVal
    · rw [if_pos h] at hx
      have hbx : basins p.1 p.2 = x := Option.some.inj hx
      exact ⟨⟨p.1, p.2, (mem_allCells rows cols p).mp hp, hbx⟩, hbx ▸ h⟩
    · rw [if_neg h] at hx
      cases hx
  · rintro ⟨⟨r, c, hdom, hbc⟩, hxn⟩
    refine ⟨(r, c), (mem_allCells rows cols (r, c)).mpr hdom, ?_⟩
    rw [if_pos (by rw [hbc]; exact hxn), hbc]

theorem mem_basins_val (basins : IntGrid) (rows cols : Nat) (noVal : Int)
    (x : Int) :
    x ∈ basins_val basins rows cols noVal ↔
      x ∈ basin_values basins rows cols noVal := by
  unfold basins_val
  rw [List.mem_insertionSort, List.mem_dedup]

/-- C5 (amended): `delete_basins` keeps exactly one distinct non-no-data
value `v0`; `v0` is `basins_val[0]` — under the CPython iteration order of
a `set` of small (0..7) non-negative ids this is the SMALLEST id present,
not the first id encountered in a row-major scan — and every cell carrying
a different id is overwritten with the no-data value. -/
theorem C5_prune_basins (basins : IntGrid) (rows cols : Nat) (noVal : Int)
    (_hsmall : ∀ p ∈ allCells rows cols, basins p.1 p.2 ≠ noVal →
      0 ≤ basins p.1 p.2 ∧ basins p.1 p.2 ≤ 7)
    (p0 : Cell) (hp0 : p0 ∈ allCells rows cols)
    (hv0 : basins p0.1 p0.2 ≠ noVal) :
    ∃ (g : IntGrid) (v0 : Int),
      delete_basins basins rows cols noVal = some g ∧
      (basins_val basins rows cols noVal).head? = some v0 ∧
      v0 ≠ noVal ∧
      (∃ r c : Int, inDomain rows cols r c ∧ basins r c = v0) ∧
      (∀ r c : Int, inDomain rows cols r c → basins r c ≠ noVal →
        v0 ≤ basins r c) ∧
      (∀ r c : Int, inDomain rows cols r c → (g r c ≠ noVal ↔ basins r c = v0)) ∧
      (∀ r c : Int, inDomain rows cols r c → g r c ≠ noVal → g r c = v0) ∧
      (∀ r c : Int, inDomain rows cols r c → basins r c ≠ noVal →
        basins r c ≠ v0 → g r c = noVal) := by
  have hmem0 : basins p0.1 p0.2 ∈ basins_val basins rows cols noVal := by
    rw [mem_basins_val, mem_basin_values]
    exact ⟨⟨p0.1, p0.2, (mem_allCells rows cols p0).mp hp0, rfl⟩, hv0⟩
  obtain ⟨v0, tl, hcons⟩ : ∃ v0 tl, basins_val basins rows cols noVal = v0 :: tl := by
    cases hbv : basins_val basins rows cols noVal with
    | nil => rw [hbv] at hmem0; cases hmem0
    | cons v0 tl => exact ⟨v0, tl, rfl⟩
  have hhead : (basins_val basins rows cols noVal).head? = some v0 := by
    rw [hcons]; rfl
  have hsorted : List.Sorted (· ≤ ·) (basins_val basins rows cols noVal) :=
    List.sorted_insertionSort (· ≤ ·) _
  have hleast : ∀ x ∈ basins_val basins rows cols noVal, v0 ≤ x := by
    intro x hx
    rw [hcons] at hx hsorted
    rcases List.mem_cons.mp hx with hx | hx
    · rw [hx]
    · exact (List.sorted_cons.mp hsorted).1 x hx
  have hv0mem : v0 ∈ basins_val basins rows cols noVal := by
    rw [hcons]; exact List.mem_cons_self v0 tl
  have hv0props := (mem_basins_val basins rows cols noVal v0).mp hv0mem
  rw [mem_basin_values] at hv0props
  obtain ⟨⟨r0, c0, hdom0, hb0⟩, hv0n⟩ := hv0props
  refine ⟨fun r c =>
      if inDomain rows cols r c ∧ basins r c ≠ noVal ∧ basins r c ≠ v0 then noVal
      else basins r c,
    v0, ?_, hhead, hv0n, ⟨r0, c0, hdom0, hb0⟩, ?_, ?_, ?_, ?_⟩
  · unfold delete_basins
    rw [hhead]
    rfl
  · intro r c hdom hne
    apply hleast
    rw [mem_basins_val, mem_basin_values]
    exact ⟨⟨r, c, hdom, rfl⟩, hne⟩
  · intro r c hdom
    constructor
    · intro hg
      simp only [] at hg
      by_cases hcond : inDomain rows cols r c ∧ basins r c ≠ noVal ∧ basins r c ≠ v0
      · rw [if_pos hcond] at hg
        exact absurd rfl hg
      · rw [if_neg hcond] at hg
        by_cases hbn : basins r c = noVal
        · exact absurd hbn hg
        · by_cases hbv : basins r c = v0
          · exact hbv
          · exact absurd ⟨hdom, hbn, hbv⟩ hcond
    · intro hb
      simp only []
      rw [if_neg (by intro hcond; exact hcond.2.2 hb), hb]
      exact hv0n
  · intro r c hdom hg
    simp only [] at hg ⊢
    by_cases hcond : inDomain rows cols r c ∧ basins r c ≠ noVal ∧ basins r c ≠ v0
    · rw [if_pos hcond] at hg
      exact absurd rfl hg
    · rw [if_neg hcond] at hg ⊢
      by_cases hbn : basins r c = noVal
      · exact absurd hbn hg
      · by_cases hbv : basins r c = v0
        · exact hbv
        · exact absurd ⟨hdom, hbn, hbv⟩ hcond
  · intro r c hdom hbn hbv
    simp only []
    rw [if_pos ⟨hdom, hbn, hbv⟩]

/-- The 1x2 basin grid `[[2, 1]]` (no-data `-9999`): the first basin id
encountered in a row-major scan is 2, but `list(set([2, 1]))` in CPython
is `[1, 2]`, so the code retains 1 and erases 2. -/
def cexC5Basins : IntGrid := fun r c =>
  if r = 0 ∧ c = 0 then 2 else if r = 0 ∧ c = 1 then 1 else -9999

/-- C5 counterexample: on `[[2, 1]]` the output is `[[-9999, 1]]`, not the
`[[2, -9999]]` the claim (retain the row-major-first id 2) requires. -/
theorem C5_counterexample :
    cexC5Basins 0 0 = 2 ∧ cexC5Basins 0 1 = 1 ∧
    (delete_basins cexC5Basins 1 2 (-9999)).map (fun g => (g 0 0, g 0 1)) =
      some (-9999, 1) ∧
    ((-9999 : Int), (1 : Int)) ≠ ((2 : Int), (-9999 : Int)) := by
  refine ⟨rfl, rfl, ?_, by decide⟩
  rfl

/-- Witness for the amended C5 at the grid `[[2, 1]]`. -/
theorem C5_witness :
    ∃ (g : IntGrid) (v0 : Int),
      delete_basins cexC5Basins 1 2 (-9999) = some g ∧
      (basins_val cexC5Basins 1 2 (-9999)).head? = some v0 ∧
      v0 ≠ -9999 ∧
      (∃ r c : Int, inDomain 1 2 r c ∧ cexC5Basins r c = v0) ∧
      (∀ r c : Int, inDomain 1 2 r c → cexC5Basins r c ≠ -9999 →
        v0 ≤ cexC5Basins r c) ∧
      (∀ r c : Int, inDomain 1 2 r c → (g r c ≠ -9999 ↔ cexC5Basins r c = v0)) ∧
      (∀ r c : Int, inDomain 1 2 r c → g r c ≠ -9999 → g r c = v0) ∧
      (∀ r c : Int, inDomain 1 2 r c → cexC5Basins r c ≠ -9999 →
        cexC5Basins r c ≠ v0 → g r c = -9999) :=
  C5_prune_basins cexC5Basins 1 2 (-9999) (by decide) (0, 0) (by decide) (by decide)

/-! ## Claim C6: DirectionAssigner picks the first maximum slope -/

/-- What it means for `best` to describe `np.nanargmax` of (the scanned
prefix of) a vector: `none` iff every entry is NaN; otherwise the recorded
index holds a defined value that is maximal, and strictly greater than
every defined value at a smaller index (ties go to the first index). -/
def IsFirstMax (L : List (Option Q2)) : Option (Nat × Q2) → Prop
  | none => ∀ x ∈ L, x = none
  | some bv => bv.1 < L.length ∧ L[bv.1]? = some (some bv.2) ∧
      (∀ (j : Nat) (w : Q2), L[j]? = some (some w) → w.toReal ≤ bv.2.toReal) ∧
      (∀ (j : Nat) (w : Q2), j < bv.1 → L[j]? = some (some w) →
        w.toReal < bv.2.toReal)

theorem argmaxGo_spec :
    ∀ (rest pre : List (Option Q2)) (best : Option (Nat × Q2)),
      IsFirstMax pre best →
      IsFirstMax (pre ++ rest) (argmaxGo rest pre.length best) := by
  intro rest
  induction rest with
  | nil =>
      intro pre best h
      rw [List.append_nil]
      exact h
  | cons x rest ih =>
      intro pre best h
      have hassoc : pre ++ x :: rest = (pre ++ [x]) ++ rest := by simp
      have hlen : (pre ++ [x]).length = pre.length + 1 := by simp
      rw [hassoc]
      -- a step lemma: the new accumulator describes the prefix pre ++ [x]
      rcases x with _ | v
      · have hstep : argmaxGo (none :: rest) pre.length best =
            argmaxGo rest (pre.length + 1) best := rfl
        rw [hstep, ← hlen]
        apply ih
        rcases best with _ | bv
        · intro y hy
          rcases List.mem_append.mp hy with hy | hy
          · exact h y hy
          · rcases List.mem_singleton.mp hy with rfl
            rfl
        · obtain ⟨hb1, hb2, hb3, hb4⟩ := h
          refine ⟨by simp; omega, ?_, ?_, ?_⟩
          · rw [List.getElem?_append_left hb1]
            exact hb2
          · intro j w hj
            by_cases hjlen : j < pre.length
            · exact hb3 j w (by rwa [List.getElem?_append_left hjlen] at hj)
            · by_cases hjeq : j = pre.length
              · subst hjeq
                rw [List.getElem?_concat_length] at hj
                cases hj
              · rw [List.getElem?_len_le (by simp; omega)] at hj
                cases hj
          · intro j w hjb hj
            have hjlen : j < pre.length := lt_trans hjb hb1
            exact hb4 j w hjb (by rwa [List.getElem?_append_left hjlen] at hj)
      · rcases best with _ | bv
        · have hstep : argmaxGo (some v :: rest) pre.length none =
              argmaxGo rest (pre.length + 1) (some (pre.length, v)) := rfl
          rw [hstep, ← hlen]
          apply ih
          refine ⟨by simp, by rw [List.getElem?_concat_length], ?_, ?_⟩
          · intro j w hj
            by_cases hjlen : j < pre.length
            · rw [List.getElem?_append_left hjlen] at hj
              have := h (some w) (List.getElem?_mem hj)
              cases this
            · by_cases hjeq : j = pre.length
              · subst hjeq
                rw [List.getElem?_concat_length] at hj
                have : some v = some w := Option.some.inj hj
                rw [← Option.some.inj this]
              · rw [List.getElem?_len_le (by simp; omega)] at hj
                cases hj
          · intro j w hjb hj
            have hjlen : j < pre.length := by simpa using hjb
            rw [List.getElem?_append_left hjlen] at hj
            have := h (some w) (List.getElem?_mem hj)
            cases this
        · obtain ⟨hb1, hb2, hb3, hb4⟩ := h
          by_cases hblt : Q2.blt bv.2 v = true
          · have hstep : argmaxGo (some v :: rest) pre.length (some bv) =
                argmaxGo rest (pre.length + 1) (some (pre.length, v)) := by
              simp [argmaxGo, hblt]
            rw [hstep, ← hlen]
            apply ih
            have hlt : bv.2.toReal < v.toReal := (Q2.blt_iff bv.2 v).mp hblt
            refine ⟨by simp, by rw [List.getElem?_concat_length], ?_, ?_⟩
            · intro j w hj
              by_cases hjlen : j < pre.length
              · rw [List.getElem?_append_left hjlen] at hj
                exact le_of_lt (lt_of_le_of_lt (hb3 j w hj) hlt)
              · by_cases hjeq : j = pre.length
                · subst hjeq
                  rw [List.getElem?_concat_length] at hj
                  rw [← Option.some.inj (Option.some.inj hj)]
                · rw [List.getElem?_len_le (by simp; omega)] at hj
                  cases hj
            · intro j w hjb hj
              have hjlen : j < pre.length := by simpa using hjb
              rw [List.getElem?_append_left hjlen] at hj
              exact lt_of_le_of_lt (hb3 j w hj) hlt
          · have hble : v.toReal ≤ bv.2.toReal :=
              (Q2.not_blt_iff bv.2 v).mp (Bool.eq_false_iff.mpr hblt)
            have hstep : argmaxGo (some v :: rest) pre.length (some bv) =
                argmaxGo rest (pre.length + 1) (some bv) := by
              simp [argmaxGo, hblt]
            rw [hstep, ← hlen]
            apply ih
            refine ⟨by simp; omega, ?_, ?_, ?_⟩
            · rw [List.getElem?_append_left hb1]
              exact hb2
            · intro j w hj
              by_cases hjlen : j < pre.length
              · exact hb3 j w (by rwa [List.getElem?_append_left hjlen] at hj)
              · by_cases hjeq : j = pre.length
                · subst hjeq
                  rw [List.getElem?_concat_length] at hj
                  rw [← Option.some.inj (Option.some.inj hj)]
                  exact hble
                · rw [List.getElem?_len_le (by simp; omega)] at hj
                  cases hj
            · intro j w hjb hj
              have hjlen : j < pre.length := lt_trans hjb hb1
              exact hb4 j w hjb (by rwa [List.getElem?_append_left hjlen] at hj)

theorem argmaxGo_full (L : List (Option Q2)) :
    IsFirstMax L (argmaxGo L 0 none) := by
  have := argmaxGo_spec L [] none (by intro x hx; cases hx)
  simpa using this

theorem slopeList_length (elev : ElevGrid) (rows cols : Nat) (cs : ℚ)
    (r c : Int) : (slopeList elev rows cols cs r c).length = 8 := rfl

theorem slopeList_getElem? (elev : ElevGrid) (rows cols : Nat) (cs : ℚ)
    (r c : Int) (j : Nat) (hj : j < 8) :
    (slopeList elev rows cols cs r c)[j]? =
      some (slope_at elev rows cols cs r c (j : Int)) := by
  interval_cases j <;> rfl

/-- C6: a valid cell (defined elevation and at least one defined slope)
receives the index of the numerically greatest slope, the lowest index
winning ties — "numerically" made precise through the real value
`Q2.toReal` of each slope; an invalid cell receives the no-data
sentinel. -/
theorem C6_flow_direction_argmax (elev : ElevGrid) (rows cols : Nat) (cs : ℚ)
    (_hcs : 0 < cs) (r c : Int) :
    (validDirCell elev rows cols cs r c →
      ∃ (k : Nat) (v : Q2),
        flow_direction elev rows cols cs r c = (k : Int) ∧ k < 8 ∧
        slope_at elev rows cols cs r c (k : Int) = some v ∧
        (∀ (j : Nat) (w : Q2), j < 8 →
          slope_at elev rows cols cs r c (j : Int) = some w →
            w.toReal ≤ v.toReal) ∧
        (∀ (j : Nat) (w : Q2), j < k →
          slope_at elev rows cols cs r c (j : Int) = some w →
            w.toReal < v.toReal)) ∧
    (¬validDirCell elev rows cols cs r c →
      flow_direction elev rows cols cs r c = default_no_data_value) := by
  constructor
  · intro hvalid
    have hfm := argmaxGo_full (slopeList elev rows cols cs r c)
    cases hgo : argmaxGo (slopeList elev rows cols cs r c) 0 none with
    | none =>
        exfalso
        rw [hgo] at hfm
        obtain ⟨x, hx, hxs⟩ := List.any_eq_true.mp hvalid.2
        rw [hfm x hx] at hxs
        cases hxs
    | some bv =>
        rw [hgo] at hfm
        obtain ⟨hb1, hb2, hb3, hb4⟩ := hfm
        rw [slopeList_length] at hb1
        refine ⟨bv.1, bv.2, ?_, hb1, ?_, ?_, ?_⟩
        · unfold flow_direction
          rw [if_pos hvalid]
          unfold nanArgmax
          rw [hgo]
          rfl
        · rw [slopeList_getElem? elev rows cols cs r c bv.1 hb1] at hb2
          exact Option.some.inj hb2
        · intro j w hj hw
          apply hb3 j w
          rw [slopeList_getElem? elev rows cols cs r c j hj, hw]
        · intro j w hj hw
          apply hb4 j w hj
          rw [slopeList_getElem? elev rows cols cs r c j (lt_trans hj hb1), hw]
  · intro hinvalid
    unfold flow_direction
    rw [if_neg hinvalid]

/-- Witness for C6 at the 1x2 grid `wC8Elev` (elevations 0 and 1, cell
size 1): cell (0,1) is valid and its only defined slope is toward (0,0),
direction 2 (west). -/
theorem C6_witness :
    validDirCell wC8Elev 1 2 1 0 1 ∧
    (∃ (k : Nat) (v : Q2),
      flow_direction wC8Elev 1 2 1 0 1 = (k : Int) ∧ k < 8 ∧
      slope_at wC8Elev 1 2 1 0 1 (k : Int) = some v ∧
      (∀ (j : Nat) (w : Q2), j < 8 →
        slope_at wC8Elev 1 2 1 0 1 (j : Int) = some w → w.toReal ≤ v.toReal) ∧
      (∀ (j : Nat) (w : Q2), j < k →
        slope_at wC8Elev 1 2 1 0 1 (j : Int) = some w → w.toReal < v.toReal)) :=
  ⟨by with_unfolding_all decide,
   (C6_flow_direction_argmax wC8Elev 1 2 1 (by norm_num) 0 1).1
     (by with_unfolding_all decide)⟩

/-! ## FlowAccumulator: upstream-neighbor characterization -/

/-- The code that `DEM.opposite_direction` returns for each direction code
(the direction with the negated offset); `-1` for inputs outside `0..7`. -/
def oppositeCode (d : Int) : Int :=
  if d = 0 then 4
  else if d = 1 then 5
  else if d = 2 then 6
  else if d = 3 then 7
  else if d = 4 then 0
  else if d = 5 then 1
  else if d = 6 then 2
  else if d = 7 then 3
  else -1

theorem opposite_direction_eq (d : Int) (hd : d ∈ dirList) :
    opposite_direction (DIR_OFFSETS d).2 (DIR_OFFSETS d).1 =
      some (oppositeCode d) := by
  fin_cases hd <;> rfl

theorem oppositeCode_offsets (d : Int) (hd : d ∈ dirList) :
    DIR_OFFSETS (oppositeCode d) = (-(DIR_OFFSETS d).1, -(DIR_OFFSETS d).2) := by
  fin_cases hd <;> rfl

theorem oppositeCode_range (d : Int) (hd : d ∈ dirList) :
    0 ≤ oppositeCode d ∧ oppositeCode d ≤ 7 := by
  fin_cases hd <;> norm_num [oppositeCode]

theorem oppositeCode_invol (d : Int) (hd : d ∈ dirList) :
    oppositeCode (oppositeCode d) = d := by
  fin_cases hd <;> rfl

theorem offsets_ne_zero (d : Int) (hd : d ∈ dirList) :
    ¬((DIR_OFFSETS d).1 = 0 ∧ (DIR_OFFSETS d).2 = 0) := by
  fin_cases hd <;> simp [DIR_OFFSETS]

theorem mem_dirList (k : Int) : k ∈ dirList ↔ 0 ≤ k ∧ k ≤ 7 := by
  simp only [dirList, List.mem_cons, List.not_mem_nil, or_false]
  omega

/-- Membership in the scanned upstream list, characterized the way the
claim states it: `u` is upstream of `(r, c)` iff `u` is in the domain,
carries a direction code in `0..7`, and that code's offset applied to `u`
lands on `(r, c)`. -/
theorem mem_upstream_cells (flowDir : IntGrid) (rows cols : Nat) (r c : Int)
    (u : Cell) :
    u ∈ upstream_cells flowDir rows cols r c ↔
      inDomain rows cols u.1 u.2 ∧
      0 ≤ flowDir u.1 u.2 ∧ flowDir u.1 u.2 ≤ 7 ∧
      u.1 + (DIR_OFFSETS (flowDir u.1 u.2)).2 = r ∧
      u.2 + (DIR_OFFSETS (flowDir u.1 u.2)).1 = c := by
  unfold upstream_cells upstream_cells_of
  rw [List.mem_filterMap]
  constructor
  · rintro ⟨d, hd, hcond⟩
    split at hcond
    case isTrue hC =>
      obtain ⟨hdom, hopp⟩ := hC
      obtain rfl : (r + (DIR_OFFSETS d).2, c + (DIR_OFFSETS d).1) = u :=
        Option.some.inj hcond
      have hfd : flowDir (r + (DIR_OFFSETS d).2) (c + (DIR_OFFSETS d).1) =
          oppositeCode d :=
        (Option.some.inj ((opposite_direction_eq d hd).symm.trans hopp)).symm
      have hoff := oppositeCode_offsets d hd
      have h1 : (DIR_OFFSETS (oppositeCode d)).1 = -(DIR_OFFSETS d).1 := by
        rw [hoff]
      have h2 : (DIR_OFFSETS (oppositeCode d)).2 = -(DIR_OFFSETS d).2 := by
        rw [hoff]
      refine ⟨hdom, ?_, ?_, ?_, ?_⟩
      · simp only [hfd]
        exact (oppositeCode_range d hd).1
      · simp only [hfd]
        exact (oppositeCode_range d hd).2
      · simp only [hfd, h2]
        omega
      · simp only [hfd, h1]
        omega
    case isFalse => cases hcond
  · rintro ⟨hdom, hk0, hk7, hr, hc⟩
    have hkmem : flowDir u.1 u.2 ∈ dirList := (mem_dirList _).mpr ⟨hk0, hk7⟩
    set k := flowDir u.1 u.2 with hkdef
    have hdmem : oppositeCode k ∈ dirList := by
      rw [mem_dirList]
      exact oppositeCode_range k hkmem
    refine ⟨oppositeCode k, hdmem, ?_⟩
    have hoff := oppositeCode_offsets k hkmem
    have h1 : (DIR_OFFSETS (oppositeCode k)).1 = -(DIR_OFFSETS k).1 := by
      rw [hoff]
    have h2 : (DIR_OFFSETS (oppositeCode k)).2 = -(DIR_OFFSETS k).2 := by
      rw [hoff]
    have hru : r + (DIR_OFFSETS (oppositeCode k)).2 = u.1 := by
      rw [h2]; omega
    have hcu : c + (DIR_OFFSETS (oppositeCode k)).1 = u.2 := by
      rw [h1]; omega
    have hcond : inDomain rows cols (r + (DIR_OFFSETS (oppositeCode k)).2)
          (c + (DIR_OFFSETS (oppositeCode k)).1) ∧
        opposite_direction (DIR_OFFSETS (oppositeCode k)).2
            (DIR_OFFSETS (oppositeCode k)).1 =
          some (flowDir (r + (DIR_OFFSETS (oppositeCode k)).2)
            (c + (DIR_OFFSETS (oppositeCode k)).1)) := by
      rw [hru, hcu]
      refine ⟨hdom, ?_⟩
      rw [opposite_direction_eq (oppositeCode k) hdmem,
        oppositeCode_invol k hkmem]
    rw [if_pos hcond, hru, hcu]

theorem upstream_cells_ne_self (flowDir : IntGrid) (rows cols : Nat)
    (r c : Int) (u : Cell) (hu : u ∈ upstream_cells flowDir rows cols r c) :
    ¬(u.1 = r ∧ u.2 = c) := by
  rw [mem_upstream_cells] at hu
  obtain ⟨_, hk0, hk7, hr, hc⟩ := hu
  rintro ⟨rfl, rfl⟩
  have hkmem : flowDir u.1 u.2 ∈ dirList := (mem_dirList _).mpr ⟨hk0, hk7⟩
  exact offsets_ne_zero _ hkmem ⟨by omega, by omega⟩

theorem upstream_cells_inDomain (flowDir : IntGrid) (rows cols : Nat)
    (r c : Int) (u : Cell) (hu : u ∈ upstream_cells flowDir rows cols r c) :
    inDomain rows cols u.1 u.2 :=
  ((mem_upstream_cells flowDir rows cols r c u).mp hu).1

/-! ## FlowAccumulator: memoization invariant -/

/-- The memo-soundness invariant of the accumulation array: every
in-domain cell already holding a non-negative (memoized) value satisfies
the upstream-sum equation, with every one of its upstream neighbors also
memoized. -/
def AccInv (flowDir : IntGrid) (rows cols : Nat) (acc : AccGrid) : Prop :=
  ∀ r c : Int, inDomain rows cols r c → 0 ≤ acc r c →
    acc r c = ((upstream_cells flowDir rows cols r c).map
        (fun u => 1 + acc u.1 u.2)).sum ∧
    ∀ u ∈ upstream_cells flowDir rows cols r c, 0 ≤ acc u.1 u.2

/-- `acc2` agrees with `acc` on every cell `acc` had already memoized. -/
def AccExtends (acc acc2 : AccGrid) : Prop :=
  ∀ r c : Int, 0 ≤ acc r c → acc2 r c = acc r c

theorem opposite_direction_range (dr dc k : Int)
    (h : opposite_direction dr dc = some k) : 0 ≤ k ∧ k ≤ 7 :=
  (mem_dirList k).mp (List.mem_of_find?_eq_some h)

theorem upstream_cells_of_cons_pos (flowDir : IntGrid) (rows cols : Nat)
    (r c d : Int) (ds : List Int)
    (h : inDomain rows cols (r + (DIR_OFFSETS d).2) (c + (DIR_OFFSETS d).1) ∧
      opposite_direction (DIR_OFFSETS d).2 (DIR_OFFSETS d).1 =
        some (flowDir (r + (DIR_OFFSETS d).2) (c + (DIR_OFFSETS d).1))) :
    upstream_cells_of flowDir rows cols r c (d :: ds) =
      (r + (DIR_OFFSETS d).2, c + (DIR_OFFSETS d).1) ::
        upstream_cells_of flowDir rows cols r c ds := by
  simp only [upstream_cells_of, List.filterMap_cons, if_pos h]

theorem upstream_cells_of_cons_neg (flowDir : IntGrid) (rows cols : Nat)
    (r c d : Int) (ds : List Int)
    (h : ¬(inDomain rows cols (r + (DIR_OFFSETS d).2) (c + (DIR_OFFSETS d).1) ∧
      opposite_direction (DIR_OFFSETS d).2 (DIR_OFFSETS d).1 =
        some (flowDir (r + (DIR_OFFSETS d).2) (c + (DIR_OFFSETS d).1)))) :
    upstream_cells_of flowDir rows cols r c (d :: ds) =
      upstream_cells_of flowDir rows cols r c ds := by
  simp only [upstream_cells_of, List.filterMap_cons, if_neg h]

/-- The per-call contract of `accumulate_flow` used in the induction. -/
def FlowCallSpec (flowDir : IntGrid) (rows cols : Nat) (r c : Int)
    (acc acc2 : AccGrid) (t : Int) : Prop :=
  AccInv flowDir rows cols acc2 ∧ AccExtends acc acc2 ∧ 0 ≤ t ∧
  (inDomain rows cols r c → acc2 r c = t) ∧
  (∀ r' c' : Int, acc2 r' c' ≠ acc r' c' →
    0 ≤ acc2 r' c' ∧ ((r' = r ∧ c' = c) ∨
      (0 ≤ flowDir r' c' ∧ flowDir r' c' ≤ 7)))

theorem accumulate_loop_spec (flowDir : IntGrid) (rows cols : Nat)
    (f : Int → Int → AccGrid → Option (AccGrid × Int))
    (hflow : ∀ (r c : Int) (acc acc2 : AccGrid) (t : Int),
      AccInv flowDir rows cols acc →
      f r c acc = some (acc2, t) →
      FlowCallSpec flowDir rows cols r c acc acc2 t) :
    ∀ (ds : List Int) (r c : Int) (acc : AccGrid) (total : Int)
      (acc2 : AccGrid) (total2 : Int),
      AccInv flowDir rows cols acc →
      accumulate_loop f flowDir rows cols r c ds acc total =
        some (acc2, total2) →
      AccInv flowDir rows cols acc2 ∧ AccExtends acc acc2 ∧
      total2 = total + ((upstream_cells_of flowDir rows cols r c ds).map
        (fun u => 1 + acc2 u.1 u.2)).sum ∧
      (∀ u ∈ upstream_cells_of flowDir rows cols r c ds, 0 ≤ acc2 u.1 u.2) ∧
      (∀ r' c' : Int, acc2 r' c' ≠ acc r' c' →
        0 ≤ acc2 r' c' ∧ 0 ≤ flowDir r' c' ∧ flowDir r' c' ≤ 7) := by
  intro ds
  induction ds with
  | nil =>
      intro r c acc total acc2 total2 hinv hrun
      unfold accumulate_loop at hrun
      obtain ⟨rfl, rfl⟩ : acc = acc2 ∧ total = total2 := by
        have := Option.some.inj hrun
        exact ⟨congrArg Prod.fst this, congrArg Prod.snd this⟩
      refine ⟨hinv, fun _ _ _ => rfl, by simp [upstream_cells_of], ?_, ?_⟩
      · intro u hu
        simp [upstream_cells_of] at hu
      · intro r' c' hne
        exact absurd rfl hne
  | cons d ds ih =>
      intro r c acc total acc2 total2 hinv hrun
      unfold accumulate_loop at hrun
      split at hrun
      case isTrue hC =>
        cases hx : f (r + (DIR_OFFSETS d).2) (c + (DIR_OFFSETS d).1) acc with
        | none => rw [hx] at hrun; cases hrun
        | some p =>
            obtain ⟨acc1, t⟩ := p
            rw [hx] at hrun
            obtain ⟨hinv1, hext1, ht0, hmemo, hch1⟩ := hflow _ _ _ _ _ hinv hx
            have hacc1 : acc1 (r + (DIR_OFFSETS d).2) (c + (DIR_OFFSETS d).1) = t :=
              hmemo hC.1
            obtain ⟨hinv2, hext2, htot2, hup2, hch2⟩ :=
              ih r c acc1 (total + t + 1) acc2 total2 hinv1 hrun
            have hacc2 : acc2 (r + (DIR_OFFSETS d).2) (c + (DIR_OFFSETS d).1) = t := by
              rw [hext2 _ _ (by rw [hacc1]; exact ht0), hacc1]
            have hextc : AccExtends acc acc2 := by
              intro r' c' h0
              rw [hext2 r' c' (by rw [hext1 r' c' h0]; exact h0),
                hext1 r' c' h0]
            refine ⟨hinv2, hextc, ?_, ?_, ?_⟩
            · rw [upstream_cells_of_cons_pos flowDir rows cols r c d ds hC,
                List.map_cons, List.sum_cons, htot2, hacc2]
              ring
            · intro u hu
              rw [upstream_cells_of_cons_pos flowDir rows cols r c d ds hC] at hu
              rcases List.mem_cons.mp hu with rfl | hu
              · rw [hacc2]; exact ht0
              · exact hup2 u hu
            · intro r' c' hne
              by_cases h1 : acc1 r' c' = acc r' c'
              · have hne2 : acc2 r' c' ≠ acc1 r' c' := by rw [h1]; exact hne
                exact hch2 r' c' hne2
              · obtain ⟨h0, hdisj⟩ := hch1 r' c' h1
                have he : acc2 r' c' = acc1 r' c' := hext2 r' c' h0
                refine ⟨by rw [he]; exact h0, ?_⟩
                rcases hdisj with ⟨rfl, rfl⟩ | hcode
                · have := opposite_direction_range _ _ _ hC.2
                  exact this
                · exact hcode
      case isFalse hC =>
        obtain ⟨hinv2, hext2, htot2, hup2, hch2⟩ :=
          ih r c acc total acc2 total2 hinv hrun
        refine ⟨hinv2, hext2, ?_, ?_, hch2⟩
        · rw [upstream_cells_of_cons_neg flowDir rows cols r c d ds hC]
          exact htot2
        · rw [upstream_cells_of_cons_neg flowDir rows cols r c d ds hC]
          exact hup2

theorem map_1add_congr (L : List Cell) (f g : Int → Int → Int)
    (h : ∀ u ∈ L, f u.1 u.2 = g u.1 u.2) :
    (L.map (fun u => 1 + f u.1 u.2)).sum = (L.map (fun u => 1 + g u.1 u.2)).sum := by
  induction L with
  | nil => rfl
  | cons a l ih =>
      simp only [List.map_cons, List.sum_cons]
      rw [h a (List.mem_cons_self a l),
        ih (fun u hu => h u (List.mem_cons_of_mem a hu))]

theorem accumulate_flow_spec (flowDir : IntGrid) (rows cols : Nat) :
    ∀ (fuel : Nat) (r c : Int) (acc acc2 : AccGrid) (t : Int),
      AccInv flowDir rows cols acc →
      accumulate_flow flowDir rows cols fuel r c acc = some (acc2, t) →
      FlowCallSpec flowDir rows cols r c acc acc2 t := by
  intro fuel
  induction fuel with
  | zero =>
      intro r c acc acc2 t _ hrun
      unfold accumulate_flow at hrun
      cases hrun
  | succ fuel ih =>
      intro r c acc acc2 t hinv hrun
      unfold accumulate_flow at hrun
      split at hrun
      case isTrue hdom =>
        split at hrun
        case isTrue hmemo =>
          obtain ⟨rfl, rfl⟩ : acc = acc2 ∧ acc r c = t := by
            have := Option.some.inj hrun
            exact ⟨congrArg Prod.fst this, congrArg Prod.snd this⟩
          exact ⟨hinv, fun _ _ _ => rfl, hmemo, fun _ => rfl,
            fun r' c' hne => absurd rfl hne⟩
        case isFalse hmemo =>
          cases hloop : accumulate_loop (accumulate_flow flowDir rows cols fuel)
              flowDir rows cols r c dirList acc 0 with
          | none => rw [hloop] at hrun; cases hrun
          | some p =>
              obtain ⟨acc1, total⟩ := p
              rw [hloop] at hrun
              obtain ⟨rfl, rfl⟩ : updateI acc1 r c total = acc2 ∧ total = t := by
                have := Option.some.inj hrun
                exact ⟨congrArg Prod.fst this, congrArg Prod.snd this⟩
              obtain ⟨hinv1, hext1, htot, hup1, hch1⟩ :=
                accumulate_loop_spec flowDir rows cols
                  (accumulate_flow flowDir rows cols fuel) ih dirList r c acc 0
                  acc1 total hinv hloop
              have hdefeq : upstream_cells_of flowDir rows cols r c dirList =
                  upstream_cells flowDir rows cols r c := rfl
              have htot' : total = ((upstream_cells flowDir rows cols r c).map
                  (fun u => 1 + acc1 u.1 u.2)).sum := by
                rw [htot, hdefeq]; omega
              have h0tot : 0 ≤ total := by
                rw [htot']
                apply List.sum_nonneg
                intro x hx
                obtain ⟨u, hu, rfl⟩ := List.mem_map.mp hx
                have := hup1 u hu
                omega
              have hupd_self : updateI acc1 r c total r c = total := by
                simp [updateI]
              have hupd_other : ∀ r' c' : Int, ¬(r' = r ∧ c' = c) →
                  updateI acc1 r c total r' c' = acc1 r' c' := by
                intro r' c' h
                simp only [updateI, if_neg h]
              have hupd_up : ∀ u ∈ upstream_cells flowDir rows cols r c,
                  updateI acc1 r c total u.1 u.2 = acc1 u.1 u.2 := by
                intro u hu
                exact hupd_other u.1 u.2
                  (upstream_cells_ne_self flowDir rows cols r c u hu)
              refine ⟨?_, ?_, h0tot, fun _ => hupd_self, ?_⟩
              · -- the invariant still holds after writing the new memo entry
                intro r' c' hdom' h0'
                by_cases hrc : r' = r ∧ c' = c
                · obtain ⟨rfl, rfl⟩ := hrc
                  constructor
                  · rw [hupd_self,
                      map_1add_congr (upstream_cells flowDir rows cols r' c')
                        (updateI acc1 r' c' total) acc1 hupd_up]
                    exact htot'
                  · intro u hu
                    rw [hupd_up u hu]
                    exact hup1 u hu
                · have he' : updateI acc1 r c total r' c' = acc1 r' c' :=
                    hupd_other r' c' hrc
                  have h1' : 0 ≤ acc1 r' c' := by rw [← he']; exact h0'
                  obtain ⟨heq1, hnn1⟩ := hinv1 r' c' hdom' h1'
                  have hsame : ∀ u ∈ upstream_cells flowDir rows cols r' c',
                      updateI acc1 r c total u.1 u.2 = acc1 u.1 u.2 := by
                    intro u hu
                    by_cases hurc : u.1 = r ∧ u.2 = c
                    · have h0rc : 0 ≤ acc1 r c := by
                        have := hnn1 u hu
                        rw [hurc.1, hurc.2] at this
                        exact this
                      have heqrc := (hinv1 r c hdom h0rc).1
                      have hval : acc1 r c = total := by rw [heqrc, htot']
                      have hupd : updateI acc1 r c total u.1 u.2 = total := by
                        simp only [updateI, if_pos hurc]
                      rw [hupd, hurc.1, hurc.2]
                      exact hval.symm
                    · exact hupd_other u.1 u.2 hurc
                  constructor
                  · rw [he', heq1]
                    exact (map_1add_congr (upstream_cells flowDir rows cols r' c')
                      (updateI acc1 r c total) acc1 hsame).symm
                  · intro u hu
                    rw [hsame u hu]
                    exact hnn1 u hu
              · -- extension: only unmemoized cells are written
                intro r' c' h0
                by_cases hrc : r' = r ∧ c' = c
                · exfalso
                  rw [hrc.1, hrc.2] at h0
                  exact hmemo h0
                · rw [hupd_other r' c' hrc]
                  exact hext1 r' c' h0
              · -- changed cells
                intro r' c' hne
                by_cases hrc : r' = r ∧ c' = c
                · obtain ⟨rfl, rfl⟩ := hrc
                  rw [hupd_self]
                  exact ⟨h0tot, Or.inl ⟨rfl, rfl⟩⟩
                · rw [hupd_other r' c' hrc] at hne ⊢
                  obtain ⟨h0, hcode⟩ := hch1 r' c' hne
                  exact ⟨h0, Or.inr hcode⟩
      case isFalse hdom =>
        obtain ⟨rfl, rfl⟩ : acc = acc2 ∧ 0 = t := by
          have := Option.some.inj hrun
          exact ⟨congrArg Prod.fst this, congrArg Prod.snd this⟩
        exact ⟨hinv, fun _ _ _ => rfl, le_refl 0,
          fun hd => absurd hd hdom, fun r' c' hne => absurd rfl hne⟩

theorem accum_cells_spec (flowDir : IntGrid) (rows cols fuel : Nat) :
    ∀ (cells : List Cell) (acc accF : AccGrid),
      AccInv flowDir rows cols acc →
      accum_cells flowDir rows cols fuel cells acc = some accF →
      AccInv flowDir rows cols accF ∧ AccExtends acc accF ∧
      (∀ p ∈ cells, inDomain rows cols p.1 p.2 → acc p.1 p.2 = -1 →
        0 ≤ accF p.1 p.2) ∧
      (∀ r' c' : Int, accF r' c' ≠ acc r' c' →
        0 ≤ accF r' c' ∧
          (acc r' c' = -1 ∨ (0 ≤ flowDir r' c' ∧ flowDir r' c' ≤ 7))) := by
  intro cells
  induction cells with
  | nil =>
      intro acc accF hinv hrun
      unfold accum_cells at hrun
      obtain rfl : acc = accF := Option.some.inj hrun
      exact ⟨hinv, fun _ _ _ => rfl, fun p hp => absurd hp (List.not_mem_nil p),
        fun r' c' hne => absurd rfl hne⟩
  | cons p ps ih =>
      intro acc accF hinv hrun
      unfold accum_cells at hrun
      split at hrun
      case isTrue hp1 =>
        cases hx : accumulate_flow flowDir rows cols fuel p.1 p.2 acc with
        | none => rw [hx] at hrun; cases hrun
        | some q =>
            obtain ⟨acc1, t⟩ := q
            rw [hx] at hrun
            obtain ⟨hinv1, hext1, ht0, hmemo, hch1⟩ :=
              accumulate_flow_spec flowDir rows cols fuel p.1 p.2 acc acc1 t
                hinv hx
            obtain ⟨hinvF, hext2, hproc2, hch2⟩ := ih acc1 accF hinv1 hrun
            have hextc : AccExtends acc accF := by
              intro r' c' h0
              rw [hext2 r' c' (by rw [hext1 r' c' h0]; exact h0),
                hext1 r' c' h0]
            refine ⟨hinvF, hextc, ?_, ?_⟩
            · intro q hq hdomq hq1
              rcases List.mem_cons.mp hq with rfl | hq
              · have h1 : acc1 q.1 q.2 = t := hmemo hdomq
                have h0 : 0 ≤ acc1 q.1 q.2 := by rw [h1]; exact ht0
                rw [hext2 q.1 q.2 h0]
                exact h0
              · by_cases h1 : acc1 q.1 q.2 = acc q.1 q.2
                · exact hproc2 q hq hdomq (by rw [h1]; exact hq1)
                · have h0 : 0 ≤ acc1 q.1 q.2 := (hch1 q.1 q.2 h1).1
                  rw [hext2 q.1 q.2 h0]
                  exact h0
            · intro r' c' hne
              by_cases h1 : acc1 r' c' = acc r' c'
              · have hne2 : accF r' c' ≠ acc1 r' c' := by rw [h1]; exact hne
                obtain ⟨h0F, hd⟩ := hch2 r' c' hne2
                rw [h1] at hd
                exact ⟨h0F, hd⟩
              · obtain ⟨h0, hdisj⟩ := hch1 r' c' h1
                have he : accF r' c' = acc1 r' c' := hext2 r' c' h0
                refine ⟨by rw [he]; exact h0, ?_⟩
                rcases hdisj with ⟨rfl, rfl⟩ | hcode
                · exact Or.inl hp1
                · exact Or.inr hcode
      case isFalse hp1 =>
        obtain ⟨hinvF, hext2, hproc2, hch2⟩ := ih acc accF hinv hrun
        refine ⟨hinvF, hext2, ?_, hch2⟩
        intro q hq hdomq hq1
        rcases List.mem_cons.mp hq with rfl | hq
        · exact absurd hq1 hp1
        · exact hproc2 q hq hdomq hq1

/-- The combined guarantees of a completed `flow_accumulation` run. -/
theorem flow_accumulation_spec (flowDir : IntGrid) (elev : ElevGrid)
    (rows cols fuel : Nat) (accF : AccGrid)
    (hrun : flow_accumulation flowDir elev rows cols fuel = some accF) :
    AccInv flowDir rows cols accF ∧
    (∀ r c : Int, inDomain rows cols r c → (elev r c).isSome = true →
      0 ≤ accF r c) ∧
    (∀ r c : Int, inDomain rows cols r c → (elev r c).isSome = false →
      ¬(0 ≤ flowDir r c ∧ flowDir r c ≤ 7) →
      accF r c = default_no_data_value) ∧
    (∀ r c : Int, inDomain rows cols r c → accF r c ≠ -1) := by
  have hinv0 : AccInv flowDir rows cols (acc_init elev rows cols) := by
    intro r c _ h0
    exfalso
    unfold acc_init at h0
    split at h0
    · omega
    · unfold default_no_data_value at h0
      omega
  unfold flow_accumulation at hrun
  obtain ⟨hinvF, hext, hproc, hch⟩ :=
    accum_cells_spec flowDir rows cols fuel (allCells rows cols)
      (acc_init elev rows cols) accF hinv0 hrun
  have hvalid0 : ∀ r c : Int, inDomain rows cols r c →
      (elev r c).isSome = true → acc_init elev rows cols r c = -1 := by
    intro r c hdom hs
    unfold acc_init
    rw [if_pos ⟨hdom, hs⟩]
  have hinvalid0 : ∀ r c : Int, inDomain rows cols r c →
      (elev r c).isSome = false →
      acc_init elev rows cols r c = default_no_data_value := by
    intro r c hdom hs
    unfold acc_init
    rw [if_neg]
    intro hx
    rw [hs] at hx
    cases hx.2
  refine ⟨hinvF, ?_, ?_, ?_⟩
  · intro r c hdom hs
    exact hproc (r, c) ((mem_allCells rows cols (r, c)).mpr hdom) hdom
      (hvalid0 r c hdom hs)
  · intro r c hdom hs hcode
    by_cases hne : accF r c = acc_init elev rows cols r c
    · rw [hne]
      exact hinvalid0 r c hdom hs
    · exfalso
      obtain ⟨_, hd⟩ := hch r c hne
      rcases hd with hd | hd
      · rw [hinvalid0 r c hdom hs] at hd
        unfold default_no_data_value at hd
        omega
      · exact hcode hd
  · intro r c hdom
    by_cases hs : (elev r c).isSome = true
    · have h0 : 0 ≤ accF r c := hproc (r, c)
        ((mem_allCells rows cols (r, c)).mpr hdom) hdom (hvalid0 r c hdom hs)
      omega
    · have hs' : (elev r c).isSome = false := by
        cases hb : (elev r c).isSome
        · rfl
        · exact absurd hb hs
      by_cases hne : accF r c = acc_init elev rows cols r c
      · rw [hne, hinvalid0 r c hdom hs']
        unfold default_no_data_value
        omega
      · have := (hch r c hne).1
        omega

/-! ## Claims C1, C9, C2 -/

/-- C1: whenever `flow_accumulation` completes, every valid cell's
accumulation equals the sum over its upstream neighbors `U` of
`1 + accumulation(U)` (so a valid cell with no upstream neighbors has
accumulation 0), where the upstream neighbors are exactly the in-domain
cells whose direction code's offset applied to their own coordinate gives
the cell's coordinate. -/
theorem C1_flow_accumulation_fixpoint (flowDir : IntGrid) (elev : ElevGrid)
    (rows cols fuel : Nat) (accF : AccGrid)
    (hrun : flow_accumulation flowDir elev rows cols fuel = some accF)
    (r c : Int) (hdom : inDomain rows cols r c)
    (hval : (elev r c).isSome = true) :
    accF r c = ((upstream_cells flowDir rows cols r c).map
        (fun u => 1 + accF u.1 u.2)).sum ∧
    (upstream_cells flowDir rows cols r c = [] → accF r c = 0) ∧
    (∀ u : Cell, u ∈ upstream_cells flowDir rows cols r c ↔
      inDomain rows cols u.1 u.2 ∧
      0 ≤ flowDir u.1 u.2 ∧ flowDir u.1 u.2 ≤ 7 ∧
      u.1 + (DIR_OFFSETS (flowDir u.1 u.2)).2 = r ∧
      u.2 + (DIR_OFFSETS (flowDir u.1 u.2)).1 = c) := by
  obtain ⟨hinv, hvalid0, _, _⟩ :=
    flow_accumulation_spec flowDir elev rows cols fuel accF hrun
  have h0 := hvalid0 r c hdom hval
  obtain ⟨heq, _⟩ := hinv r c hdom h0
  refine ⟨heq, ?_, fun u => mem_upstream_cells flowDir rows cols r c u⟩
  intro hempty
  rw [heq, hempty]
  rfl

/-- The 1x2 direction grid whose cell (0,1) carries code 2 (west),
pointing at (0,0); no other cell has a valid code. -/
def wAccFd : IntGrid := fun r c => if r = 0 ∧ c = 1 then 2 else -9999

/-- The 1x2 elevation grid with both cells defined. -/
def wAccElev : ElevGrid := fun r c =>
  if 0 ≤ r ∧ r < 1 ∧ 0 ≤ c ∧ c < 2 then some 1 else none

/-- Witness for C1 on the 1x2 grid: the run completes and the upstream-sum
equation holds at both cells ((0,0) gets 1 from its upstream (0,1), which
gets 0). -/
theorem C1_witness :
    (match flow_accumulation wAccFd wAccElev 1 2 5 with
     | none => False
     | some accF =>
         accF 0 0 = ((upstream_cells wAccFd 1 2 0 0).map
           (fun u => 1 + accF u.1 u.2)).sum ∧
         accF 0 1 = ((upstream_cells wAccFd 1 2 0 1).map
           (fun u => 1 + accF u.1 u.2)).sum) := by
  cases h : flow_accumulation wAccFd wAccElev 1 2 5 with
  | none =>
      have hs : (flow_accumulation wAccFd wAccElev 1 2 5).isSome = true := rfl
      rw [h] at hs
      cases hs
  | some accF =>
      exact ⟨(C1_flow_accumulation_fixpoint wAccFd wAccElev 1 2 5 accF h 0 0
          (by decide) (by decide)).1,
        (C1_flow_accumulation_fixpoint wAccFd wAccElev 1 2 5 accF h 0 1
          (by decide) (by decide)).1⟩

/-- C9 (amended): whenever `flow_accumulation` completes, every valid cell
holds a non-negative count, every cell outside the elevation mask whose
direction value is NOT a valid code (`0..7`) still holds the no-data
sentinel, and the internal "unprocessed" sentinel `-1` appears nowhere in
the returned grid.  (Without the direction-code proviso the second part is
false: see `C9_counterexample`.) -/
theorem C9_accumulation_output_invariants (flowDir : IntGrid)
    (elev : ElevGrid) (rows cols fuel : Nat) (accF : AccGrid)
    (hrun : flow_accumulation flowDir elev rows cols fuel = some accF) :
    (∀ r c : Int, inDomain rows cols r c → (elev r c).isSome = true →
      0 ≤ accF r c) ∧
    (∀ r c : Int, inDomain rows cols r c → (elev r c).isSome = false →
      ¬(0 ≤ flowDir r c ∧ flowDir r c ≤ 7) →
      accF r c = default_no_data_value) ∧
    (∀ r c : Int, inDomain rows cols r c → accF r c ≠ -1) :=
  (flow_accumulation_spec flowDir elev rows cols fuel accF hrun).2

/-- The 1x2 elevation grid in which only (0,0) is defined. -/
def cexC9Elev : ElevGrid := fun r c => if r = 0 ∧ c = 0 then some 1 else none

/-- C9 counterexample: cell (0,1) lies outside the elevation mask (its
accumulation entry starts at the no-data sentinel), but its direction
value 2 is a valid code pointing at the valid cell (0,0), so the solve
recurses into it and overwrites its entry with 0 — the returned grid does
not hold the no-data sentinel at every cell outside the mask, and the
direction grid is cycle-free (the run completes). -/
theorem C9_counterexample :
    (cexC9Elev 0 1).isSome = false ∧
    wAccFd 0 1 = 2 ∧
    (flow_accumulation wAccFd cexC9Elev 1 2 5).map (fun g => g 0 1) = some 0 ∧
    (0 : Int) ≠ default_no_data_value := by
  refine ⟨rfl, rfl, rfl, by decide⟩

/-- The all-no-data direction grid. -/
def wC9Fd : IntGrid := fun _ _ => -9999

/-- Witness for the amended C9 on a 1x2 grid with one valid cell and an
all-no-data direction raster. -/
theorem C9_witness :
    (match flow_accumulation wC9Fd cexC9Elev 1 2 5 with
     | none => False
     | some accF =>
         0 ≤ accF 0 0 ∧ accF 0 1 = default_no_data_value ∧
         accF 0 0 ≠ -1 ∧ accF 0 1 ≠ -1) := by
  cases h : flow_accumulation wC9Fd cexC9Elev 1 2 5 with
  | none =>
      have hs : (flow_accumulation wC9Fd cexC9Elev 1 2 5).isSome = true := rfl
      rw [h] at hs
      cases hs
  | some accF =>
      have spec := C9_accumulation_output_invariants wC9Fd cexC9Elev 1 2 5 accF h
      exact ⟨spec.1 0 0 (by decide) (by decide),
        spec.2.1 0 1 (by decide) (by decide) (by decide),
        spec.2.2 0 0 (by decide), spec.2.2 0 1 (by decide)⟩

/-- The 1x2 direction grid with a two-cell cycle: (0,0) carries 6 (east,
to (0,1)) and (0,1) carries 2 (west, to (0,0)). -/
def cycleFd : IntGrid := fun r c =>
  if r = 0 ∧ c = 0 then 6 else if r = 0 ∧ c = 1 then 2 else -9999

/-- The 1x2 elevation grid with both cells defined (for the cycle run). -/
def cycleElev : ElevGrid := fun r c =>
  if 0 ≤ r ∧ r < 1 ∧ 0 ≤ c ∧ c < 2 then some 1 else none

theorem cycle_accflow_none : ∀ (fuel : Nat) (acc : AccGrid),
    acc 0 0 < 0 → acc 0 1 < 0 →
    accumulate_flow cycleFd 1 2 fuel 0 0 acc = none ∧
    accumulate_flow cycleFd 1 2 fuel 0 1 acc = none := by
  intro fuel
  induction fuel with
  | zero => intro acc _ _; exact ⟨rfl, rfl⟩
  | succ fuel ih =>
      intro acc h0 h1
      constructor
      · show (if inDomain 1 2 0 0 then
            if 0 ≤ acc 0 0 then some (acc, acc 0 0)
            else
              match accumulate_loop (accumulate_flow cycleFd 1 2 fuel)
                  cycleFd 1 2 0 0 dirList acc 0 with
              | none => none
              | some (acc2, total) => some (updateI acc2 0 0 total, total)
          else some (acc, 0)) = none
        rw [if_pos (by decide), if_neg (by omega)]
        have h6 : accumulate_flow cycleFd 1 2 fuel 0 1 acc = none :=
          (ih acc h0 h1).2
        have hred : accumulate_loop (accumulate_flow cycleFd 1 2 fuel)
            cycleFd 1 2 0 0 dirList acc 0 =
            match accumulate_flow cycleFd 1 2 fuel 0 1 acc with
            | none => none
            | some (acc2, t) =>
                accumulate_loop (accumulate_flow cycleFd 1 2 fuel)
                  cycleFd 1 2 0 0 [7] acc2 (0 + t + 1) := rfl
        rw [hred, h6]
      · show (if inDomain 1 2 0 1 then
            if 0 ≤ acc 0 1 then some (acc, acc 0 1)
            else
              match accumulate_loop (accumulate_flow cycleFd 1 2 fuel)
                  cycleFd 1 2 0 1 dirList acc 0 with
              | none => none
              | some (acc2, total) => some (updateI acc2 0 1 total, total)
          else some (acc, 0)) = none
        rw [if_pos (by decide), if_neg (by omega)]
        have h2 : accumulate_flow cycleFd 1 2 fuel 0 0 acc = none :=
          (ih acc h0 h1).1
        have hred : accumulate_loop (accumulate_flow cycleFd 1 2 fuel)
            cycleFd 1 2 0 1 dirList acc 0 =
            match accumulate_flow cycleFd 1 2 fuel 0 0 acc with
            | none => none
            | some (acc2, t) =>
                accumulate_loop (accumulate_flow cycleFd 1 2 fuel)
                  cycleFd 1 2 0 1 [3, 4, 5, 6, 7] acc2 (0 + t + 1) := rfl
        rw [hred, h2]

/-- C2: on the cyclic 1x2 direction grid the flow-accumulation solve never
returns, whatever the recursion budget — the code has no cycle guard, so a
cycle means unbounded recursion (a Python `RecursionError`), not the
`CycleDetected` error with the offending coordinate that the specification
requires. -/
theorem C2_cycle_never_completes :
    ∀ fuel : Nat, flow_accumulation cycleFd cycleElev 1 2 fuel = none := by
  intro fuel
  have h := (cycle_accflow_none fuel (acc_init cycleElev 1 2)
    (by decide) (by decide)).1
  show accum_cells cycleFd 1 2 fuel (allCells 1 2)
    (acc_init cycleElev 1 2) = none
  have hred : accum_cells cycleFd 1 2 fuel (allCells 1 2)
      (acc_init cycleElev 1 2) =
      match accumulate_flow cycleFd 1 2 fuel 0 0 (acc_init cycleElev 1 2) with
      | none => none
      | some (acc2, _) => accum_cells cycleFd 1 2 fuel [(0, 1)] acc2 := rfl
  rw [hred, h]

end DigitalRivers
